import Mathlib

/-!
Verification development for the mengla data-collection orchestrator.

Each section shallowly embeds one part of the backend source:
  * `JValue` models the opaque JSON payloads (Python dicts/lists decoded
    from JSON; Python `None` and JSON `null` coincide after `json.loads`,
    so both are `JValue.null`).
  * domain predicates from `backend/core/domain.py`
    (`_unwrap_result_data`, `_cached_list_empty`, `_should_persist_result`,
    `_get_trend_points_from_result`, `_is_stored_data_empty`),
  * the trend read-through of `_fetch_mengla_data`,
  * the three-tier cache manager of `backend/infra/cache.py`,
  * the non-trend query pipeline of `query_mengla`,
  * the in-flight dedup registry of `_fetch_mengla_data`,
  * the resilience layer of `backend/infra/resilience.py`,
  * the webhook handler of `backend/api/webhook_routes.py`,
  * the job queue of `backend/core/queue.py` together with the period
    algebra of `backend/utils/period.py`,
  * the sync-task log of `backend/core/sync_task_log.py`.
-/

namespace Mengla

/-- JSON value, as produced by `json.loads`.  Numbers are modelled as
integers (the payload fields the backend inspects, such as `code`, are
integral). -/
inductive JValue where
  | null : JValue
  | bool (b : Bool) : JValue
  | num (n : Int) : JValue
  | str (s : String) : JValue
  | arr (elems : List JValue) : JValue
  | obj (fields : List (String × JValue)) : JValue
deriving Repr

/-- Python `x is None` (after `json.loads`, `None` is exactly `JValue.null`). -/
def isNull : JValue → Bool
  | .null => true
  | _ => false

theorem isNull_false_ne_null {v : JValue} (h : isNull v = false) : v ≠ .null := by
  intro hv
  subst hv
  simp [isNull] at h

/-- Python truthiness of a JSON value (`bool(x)`). -/
def truthy : JValue → Bool
  | .null => false
  | .bool b => b
  | .num n => n != 0
  | .str s => !s.isEmpty
  | .arr xs => !xs.isEmpty
  | .obj fs => !fs.isEmpty

/-- Python `a or b`: the first operand if truthy, otherwise the second. -/
def pyOr (a b : JValue) : JValue :=
  if truthy a then a else b

/-- Python `s.lower()` (the inputs the backend lower-cases are ASCII). -/
def pyLower (s : String) : String :=
  String.mk (s.toList.map Char.toLower)

/-- Python `d.get(k)` on a decoded-JSON dict: the stored value, or `None`
(`JValue.null`) when the key is absent or the receiver is not a dict.
(The embedding only applies it where the source guards with
`isinstance(..., dict)` or where the dict came from `json.loads`.) -/
def dictGet (v : JValue) (k : String) : JValue :=
  match v with
  | .obj fs =>
    match fs.find? (fun p => p.1 = k) with
    | some p => p.2
    | none => .null
  | _ => .null

/-- `isinstance(v, dict)`. -/
def isDict : JValue → Bool
  | .obj _ => true
  | _ => false

/-- `isinstance(v, list)`. -/
def isList : JValue → Bool
  | .arr _ => true
  | _ => false

mutual

/-- Executable structural size of a JSON value (the derived `SizeOf`
instance of a nested inductive has no executable code), used only as
loop fuel. -/
def jsize : JValue → Nat
  | .null => 1
  | .bool _ => 1
  | .num _ => 1
  | .str _ => 1
  | .arr xs => 1 + jsizeList xs
  | .obj fs => 1 + jsizeFields fs

def jsizeList : List JValue → Nat
  | [] => 0
  | v :: vs => 1 + jsize v + jsizeList vs

def jsizeFields : List (String × JValue) → Nat
  | [] => 0
  | (_, v) :: fs => 1 + jsize v + jsizeFields fs

end

theorem jsize_pos (v : JValue) : 1 ≤ jsize v := by
  cases v <;> simp [jsize]

theorem jsize_mem_fields {fs : List (String × JValue)} {p : String × JValue}
    (h : p ∈ fs) : jsize p.2 < 1 + jsizeFields fs := by
  induction fs with
  | nil => cases h
  | cons q rest ih =>
    obtain ⟨qa, qv⟩ := q
    rcases List.mem_cons.mp h with h' | h'
    · subst h'
      simp only [jsizeFields]
      omega
    · have := ih h'
      simp only [jsizeFields]
      omega

theorem dictGet_size (v : JValue) (k : String) :
    dictGet v k = .null ∨ jsize (dictGet v k) < jsize v := by
  cases v with
  | obj fs =>
    simp only [dictGet]
    cases h : fs.find? (fun p => p.1 = k) with
    | none => exact Or.inl rfl
    | some p =>
      refine Or.inr ?_
      have hmem : p ∈ fs := List.mem_of_find?_eq_some h
      have h1 := jsize_mem_fields hmem
      simp only [jsize]
      omega
  | null => exact Or.inl rfl
  | bool b => exact Or.inl rfl
  | num n => exact Or.inl rfl
  | str s => exact Or.inl rfl
  | arr xs => exact Or.inl rfl

theorem pyOr_size (v : JValue) (a b : JValue)
    (ha : a = .null ∨ jsize a < jsize v) (hb : b = .null ∨ jsize b < jsize v)
    (hne : pyOr a b ≠ .null) : jsize (pyOr a b) < jsize v := by
  unfold pyOr at *
  by_cases h : truthy a = true
  · simp only [h, if_true] at hne ⊢
    rcases ha with h' | h'
    · exact absurd h' hne
    · exact h'
  · simp only [h, if_false, Bool.false_eq_true] at hne ⊢
    rcases hb with h' | h'
    · exact absurd h' hne
    · exact h'

/-- One-step-bounded form of the `_unwrap_result_data` loop.  Every
iteration steps from a dict to the strictly smaller member value
`resultData or data`, so any fuel of at least `jsize v` runs the loop
to completion and the exhausted-fuel case is unreachable from
`unwrapResultData` (certified by `unwrapGo_fuel_irrel` below). -/
def unwrapGo : Nat → JValue → JValue
  | 0, v => v
  | fuel + 1, v =>
    match v with
    | .obj fs =>
      let inner := pyOr (dictGet (.obj fs) "resultData") (dictGet (.obj fs) "data")
      if isNull inner then .obj fs
      else unwrapGo fuel inner
    | v => v

theorem unwrapGo_fuel_irrel (f1 : Nat) : ∀ (v : JValue) (f2 : Nat),
    jsize v ≤ f1 → jsize v ≤ f2 → unwrapGo f1 v = unwrapGo f2 v := by
  induction f1 with
  | zero =>
    intro v f2 h1 h2
    have := jsize_pos v
    omega
  | succ k ih =>
    intro v f2 h1 h2
    cases f2 with
    | zero =>
      have := jsize_pos v
      omega
    | succ k2 =>
      cases v with
      | obj fs =>
        simp only [unwrapGo]
        set inner := pyOr (dictGet (.obj fs) "resultData") (dictGet (.obj fs) "data")
          with hinner
        by_cases hnull : isNull inner
        · simp [hnull]
        · have hne : inner ≠ .null := isNull_false_ne_null (by simpa using hnull)
          have hsz : jsize inner < jsize (JValue.obj fs) :=
            pyOr_size (.obj fs) _ _ (dictGet_size _ "resultData") (dictGet_size _ "data") hne
          simp only [hnull, if_false, Bool.false_eq_true]
          exact ih inner k2 (by omega) (by omega)
      | null => rfl
      | bool b => rfl
      | num n => rfl
      | str s => rfl
      | arr xs => rfl

/-- `_unwrap_result_data` (domain.py): while the value is a dict, step
into `resultData or data`; stop when neither is present. -/
def unwrapResultData (v : JValue) : JValue :=
  unwrapGo (jsize v) v

/-- The `{"high": "highList", "hot": "hotList", "chance": "chanceList"}.get(action)`
mapping used by the emptiness predicates. -/
def listKeyOf (action : String) : Option String :=
  if action = "high" then some "highList"
  else if action = "hot" then some "hotList"
  else if action = "chance" then some "chanceList"
  else none

/-- `_cached_list_empty` (domain.py): whether a cached high/hot/chance
document has an empty list, in which case it is treated as a cache miss. -/
def cachedListEmpty (data : JValue) (action : String) : Bool :=
  if isNull data || !isDict data then true
  else
    let inner := pyOr (dictGet data "resultData") (pyOr (dictGet data "data") data)
    if !isDict inner then true
    else
      match listKeyOf action with
      | none => false
      | some listKey =>
        let lst := dictGet inner listKey
        if !isDict lst then true
        else
          let dataVal := dictGet lst "data"
          match dataVal with
          | .null => true
          | .arr xs => xs.isEmpty
          | .obj _ =>
            let items := match dictGet dataVal "list" with
              | .arr xs => xs
              | _ => []
            items.isEmpty
          | _ => true

/-- Python `x == 0` for a JSON value (`0`, `0.0` and `False` all compare
equal to `0` in Python). -/
def pyEqZero : JValue → Bool
  | .num n => n == 0
  | .bool b => !b
  | _ => false

/-- `_get_trend_points_from_result` (domain.py): extract the trend point
list from an `industryTrendRange` result. -/
def getTrendPointsFromResult (result : JValue) : List JValue :=
  if !isDict result then []
  else
    let inner := pyOr (dictGet result "resultData") (pyOr (dictGet result "data") result)
    if !isDict inner then []
    else
      match dictGet inner "industryTrendRange" with
      | .arr xs => xs
      | .obj fs =>
        match dictGet (.obj fs) "data" with
        | .arr xs => xs
        | _ => []
      | _ => []

/-- `_should_persist_result` (domain.py): a collect result may be written
to Mongo/Redis only when it is successful and non-empty (`code == 0`,
`data` present and non-empty; for trend, at least one point). -/
def shouldPersistResult (result : JValue) (action : String) : Bool :=
  if !isDict result then false
  else
    let inner := pyOr (dictGet result "resultData") (pyOr (dictGet result "data") result)
    if !isDict inner then false
    else
      let listOk :=
        match listKeyOf action with
        | none => true
        | some listKey =>
          let lst := dictGet inner listKey
          if !isDict lst then false
          else if !pyEqZero (dictGet lst "code") then false
          else
            let dataVal := dictGet lst "data"
            match dataVal with
            | .null => false
            | .arr xs => !xs.isEmpty
            | .obj _ =>
              let items := match dictGet dataVal "list" with
                | .arr xs => xs
                | _ => []
              !items.isEmpty
            | _ => true
      if !listOk then false
      else if action = "industryTrendRange" then
        !(getTrendPointsFromResult result).isEmpty
      else true

/-- `_is_result_empty` (domain.py). -/
def isResultEmpty (result : JValue) (action : String) : Bool :=
  !shouldPersistResult result action

/-- Emptiness of the `data` attribute of a stored document, the body of
`_is_stored_data_empty` (domain.py): `None`, an empty dict, an empty list
or an empty string count as empty. -/
def jEmptyLike : JValue → Bool
  | .null => true
  | .obj fs => fs.isEmpty
  | .arr xs => xs.isEmpty
  | .str s => s.isEmpty
  | _ => false

/-! ## Association-list stores

Mongo collections with a unique index on the identity tuple, the Redis
keyspace and the L1 dict are all modelled as association lists with
unique keys; `aset` is the idempotent upsert (`replace_one(upsert=True)`,
`redis.set`, dict assignment). -/

/-- Lookup in an association-list store. -/
def aget {K V : Type} [DecidableEq K] (m : List (K × V)) (k : K) : Option V :=
  (m.find? (fun p => p.1 = k)).map Prod.snd

/-- Upsert into an association-list store. -/
def aset {K V : Type} [DecidableEq K] (m : List (K × V)) (k : K) (v : V) : List (K × V) :=
  (k, v) :: m.filter (fun p => p.1 ≠ k)

/-- Mongo document of the `mengla_data` collection, as far as the read and
persistence paths inspect it: its `data` attribute (`JValue.null` when the
attribute is absent or `None`), provenance and collect duration.  The
wall-clock attributes (`created_at`, `updated_at`, `expired_at`) and the
md5 content hash are not inspected by the modelled paths and are elided. -/
structure L3Doc where
  data : JValue
  source : String
  collectDurationMs : Nat

/-- `_is_stored_data_empty` (domain.py): a missing document, or one whose
`data` is `None` / an empty dict / an empty list / an empty string. -/
def isStoredDataEmptyDoc : Option L3Doc → Bool
  | none => true
  | some doc => jEmptyLike doc.data

/-! ## Trend read-through (`_fetch_mengla_data`, trend branch) -/

/-- Per-document point extraction used by both trend merge loops of
`_fetch_mengla_data` (domain.py lines 334-342 and 361-369). -/
def trendPointsOfData (data : JValue) : List JValue :=
  let unwrapped := unwrapResultData data
  match unwrapped with
  | .obj fs =>
    match dictGet (.obj fs) "industryTrendRange" with
    | .arr xs => xs
    | .obj gs =>
      match dictGet (.obj gs) "data" with
      | .arr xs => xs
      | _ => []
    | _ => []
  | .arr xs => xs
  | _ => []

/-- Full-hit merge loop (domain.py lines 328-342): walk the period keys in
order, `break` as soon as a document has falsy `data`, otherwise extend
the point list.  (The branch is only entered when every key is present;
a missing key likewise stops the walk.) -/
def collectFullPoints (byKey : String → Option L3Doc) : List String → List JValue
  | [] => []
  | k :: ks =>
    match byKey k with
    | none => []
    | some doc =>
      if truthy doc.data then trendPointsOfData doc.data ++ collectFullPoints byKey ks
      else []

/-- Some-hit merge loop (domain.py lines 353-369): skip missing keys and
documents with falsy `data` (`continue`), extend with the rest. -/
def collectSomePoints (byKey : String → Option L3Doc) (ks : List String) : List JValue :=
  ks.flatMap (fun k =>
    match byKey k with
    | none => []
    | some doc =>
      if truthy doc.data then trendPointsOfData doc.data else [])

/-- Lexicographic code-point comparison of character lists: Python `<=`
on `str`. -/
def charListLe : List Char → List Char → Bool
  | [], _ => true
  | _ :: _, [] => false
  | a :: as, b :: bs => if a < b then true else if b < a then false else charListLe as bs

/-- The sort key of a trend point: `(p.get("timest") or "") if isinstance(p, dict) else ""`.
The backend's `timest` values are strings; a truthy non-string `timest`
would make the Python sort raise and does not occur in stored points. -/
def trendSortKey (p : JValue) : String :=
  match p with
  | .obj fs =>
    let t := dictGet (.obj fs) "timest"
    if truthy t then
      match t with
      | .str s => s
      | _ => ""
    else ""
  | _ => ""

/-- Comparison of two trend points by their sort key. -/
def trendPointLe (a b : JValue) : Bool :=
  charListLe (trendSortKey a).toList (trendSortKey b).toList

/-- Stable insertion of a point into a key-sorted list. -/
def insertPoint (x : JValue) : List JValue → List JValue
  | [] => [x]
  | y :: ys => if trendPointLe x y then x :: y :: ys else y :: insertPoint x ys

/-- `points.sort(key=...)` (Python's sort is stable; a stable insertion
sort over the same total preorder on keys computes the same list). -/
def sortTrendPoints (pts : List JValue) : List JValue :=
  pts.foldr insertPoint []

/-- The merged trend payload `{"industryTrendRange": {"data": points}}`. -/
def mergedTrend (pts : List JValue) : JValue :=
  .obj [("industryTrendRange", .obj [("data", .arr (sortTrendPoints pts))])]

/-- The documents returned by the Mongo `$in` query over the requested
period keys (`existing_docs`); the store holds one document per period
key (unique index on the identity tuple). -/
def trendDocs (store : List (String × L3Doc)) (ks : List String) : List (String × L3Doc) :=
  store.filter (fun p => ks.contains p.1)

/-- `by_key = {d["period_key"]: d for d in existing_docs}`. -/
def trendByKey (store : List (String × L3Doc)) (ks : List String) (k : String) : Option L3Doc :=
  aget (trendDocs store ks) k

/-- Outcome of the trend read-through: full merge (`source="mongo"`),
merge of the found subset with `requested`/`found` counts (the
`partial` side-channel of the return at domain.py line 377), or fall
through to the upstream fetch. -/
inductive TrendReadOutcome where
  | hitAll (merged : JValue)
  | hitSome (merged : JValue) (requested found : Nat)
  | upstream
deriving Repr

/-- The trend branch of `_fetch_mengla_data` (domain.py lines 312-378),
parameterised by the computed `period_keys_list` and the `mengla_data`
documents for the requested identity (keyed by period key). -/
def trendRead (store : List (String × L3Doc)) (ks : List String) : TrendReadOutcome :=
  let byKey := trendByKey store ks
  let fullCase : Option TrendReadOutcome :=
    if !ks.isEmpty && ks.all (fun k => (byKey k).isSome) then
      let pts := collectFullPoints byKey ks
      if ks.length ≤ pts.length then some (.hitAll (mergedTrend pts)) else none
    else none
  match fullCase with
  | some o => o
  | none =>
    if !ks.isEmpty && !(trendDocs store ks).isEmpty then
      let pts := collectSomePoints byKey ks
      if !pts.isEmpty then
        .hitSome (mergedTrend pts) ks.length (trendDocs store ks).length
      else .upstream
    else .upstream

/-! ## Three-tier cache manager (`infra/cache.py`) -/

/-- The identity tuple addressing every cache layer. -/
structure CacheKey where
  action : String
  catId : String
  granularity : String
  periodKey : String
deriving DecidableEq, Repr

/-- Joint state of the three cache layers for the modelled identities:
L1 (per-process dict), L2 (Redis, JSON round-trip elided) and L3
(`mengla_data` documents). -/
structure CacheState where
  l1 : List (CacheKey × JValue)
  l2 : List (CacheKey × JValue)
  l3 : List (CacheKey × L3Doc)

/-- A layer probe: Python's `get` returns `None` both when the key is
absent and when the stored value is `None`. -/
def layerGet (m : List (CacheKey × JValue)) (k : CacheKey) : JValue :=
  (aget m k).getD .null

/-- `CacheManager.get` (cache.py lines 327-356): probe L1, then L2
(populating L1 on a hit), then L3 (populating L1 and L2 on a hit);
return the first hit with its source tag, `(None, "")` otherwise. -/
def cmGet (st : CacheState) (k : CacheKey) : Option JValue × String × CacheState :=
  let v1 := layerGet st.l1 k
  if !isNull v1 then (some v1, "l1", st)
  else
    let v2 := layerGet st.l2 k
    if !isNull v2 then (some v2, "l2", { st with l1 := aset st.l1 k v2 })
    else
      match aget st.l3 k with
      | some doc =>
        if !isNull doc.data then
          (some doc.data, "l3",
            { st with l1 := aset st.l1 k doc.data, l2 := aset st.l2 k doc.data })
        else (none, "", st)
      | none => (none, "", st)

/-- `CacheManager.set` (cache.py lines 358-385): write the value to all
three layers (the md5 content hash stored alongside the L3 document is
elided; per-layer failures are logged and ignored, so writes are modelled
as succeeding).  There is no emptiness check. -/
def cmSet (st : CacheState) (k : CacheKey) (v : JValue) (source : String)
    (collectDurationMs : Nat) : CacheState :=
  { l1 := aset st.l1 k v
    l2 := aset st.l2 k v
    l3 := aset st.l3 k ⟨v, source, collectDurationMs⟩ }

/-! ## Non-trend query pipeline (`query_mengla` + `_fetch_mengla_data`) -/

/-- The actions whose cached documents are re-checked for empty lists. -/
def listedActions : List String := ["high", "hot", "chance"]

/-- Result of the inner fetch: updated stores, returned payload, source. -/
structure FetchOut where
  st : CacheState
  data : JValue
  source : String

/-- The non-trend branch of `_fetch_mengla_data` (domain.py lines
380-420 and 471-571), parameterised by the result the upstream service
returns for this request: probe Mongo (back-filling Redis on a usable
hit), then Redis, then fetch fresh and apply the persistence policy
(`_should_persist_result`, re-checking the store before writing).
`_dedupe_by_query` keeps one document per identity and is the identity
on the unique-keyed store. -/
def fetchMenglaNonTrend (st : CacheState) (k : CacheKey) (upstreamResult : JValue) :
    FetchOut :=
  let mongoStep : Option FetchOut :=
    match aget st.l3 k with
    | some doc =>
      if listedActions.contains k.action && cachedListEmpty doc.data k.action then none
      else if !isNull doc.data then
        some { st := { st with l2 := aset st.l2 k doc.data }
               data := unwrapResultData doc.data
               source := "mongo" }
      else none
    | none => none
  match mongoStep with
  | some o => o
  | none =>
    let cached := layerGet st.l2 k
    let redisStep : Option FetchOut :=
      if !isNull cached then
        if listedActions.contains k.action && cachedListEmpty cached k.action then none
        else
          some { st := st, data := unwrapResultData cached, source := "redis" }
      else none
    match redisStep with
    | some o => o
    | none =>
      let result := upstreamResult
      let st' :=
        if isResultEmpty result k.action then st
        else
          let existingAgain := aget st.l3 k
          if existingAgain.isSome && !isStoredDataEmptyDoc existingAgain then st
          else
            { st with l3 := aset st.l3 k ⟨result, "fresh", 0⟩
                      l2 := aset st.l2 k result }
      { st := st', data := unwrapResultData result, source := "fresh" }

/-- `query_mengla` (domain.py lines 748-789) for a non-trend action with
`use_cache=True`: consult the three-tier cache; on a miss run the fetch
through the circuit breaker (a CLOSED breaker admits the call and does
not alter the data path) and then write the returned payload to all
three cache layers via `CacheManager.set` — unconditionally. -/
def queryMenglaNonTrend (st : CacheState) (k : CacheKey) (upstreamResult : JValue) :
    CacheState × JValue × String :=
  match cmGet st k with
  | (some v, src, st1) => (st1, v, src)
  | (none, _, st1) =>
    let f := fetchMenglaNonTrend st1 k upstreamResult
    let st2 := cmSet f.st k f.data "fresh" 0
    (st2, f.data, f.source)

/-! ## In-flight dedup registry (`IN_FLIGHT`, domain.py lines 573-587)

The dedup section of `_fetch_mengla_data` for one fixed `request_key`,
modelled as a labelled transition system.  Under the cooperative
(single-threaded asyncio) scheduling there is no suspension point
between `IN_FLIGHT.get(request_key)`, `loop.create_task(...)` and
`IN_FLIGHT[request_key] = task`, so an arrival is one atomic step;
`loop.create_task(_fetch_and_persist())` dispatches exactly one upstream
`service.query` for the key, counted at creation.  Task objects are
compared by identity (`is`), modelled by fresh numeric ids. -/

/-- Where one caller of the fetch path stands. -/
inductive CallerPhase where
  | start
  | waiting (t : Nat) (creator : Bool)
  | done
deriving DecidableEq, Repr

/-- State of the registry and its callers for one `request_key`. -/
structure DedupState where
  inflight : Option Nat
  nextTask : Nat
  completed : List Nat
  callers : List CallerPhase
  upstreamCalls : Nat
deriving DecidableEq, Repr

/-- Scheduler events: a caller reaches the dedup section, a created task
finishes, a caller's `await` resumes (running the creator's `finally`). -/
inductive DedupLabel where
  | arrive (i : Nat)
  | finishTask (t : Nat)
  | resume (i : Nat)
deriving DecidableEq, Repr

/-- One interleaving step; `none` when the event is not enabled. -/
def dedupStep (s : DedupState) (l : DedupLabel) : Option DedupState :=
  match l with
  | .arrive i =>
    match s.callers[i]? with
    | some .start =>
      match s.inflight with
      | some t =>
        some { s with callers := s.callers.set i (.waiting t false) }
      | none =>
        some { s with
          inflight := some s.nextTask
          callers := s.callers.set i (.waiting s.nextTask true)
          nextTask := s.nextTask + 1
          upstreamCalls := s.upstreamCalls + 1 }
    | _ => none
  | .finishTask t =>
    if t < s.nextTask && !s.completed.contains t then
      some { s with completed := t :: s.completed }
    else none
  | .resume i =>
    match s.callers[i]? with
    | some (.waiting t creator) =>
      if s.completed.contains t then
        if creator then
          some { s with
            callers := s.callers.set i .done
            inflight := if s.inflight = some t then none else s.inflight }
        else
          some { s with callers := s.callers.set i .done }
      else none
    | _ => none

/-! ## Resilience layer (`infra/resilience.py`) -/

/-- `calculate_delay` (resilience.py lines 61-71): exponential backoff
`min(base * 2**attempt, max)` (`exponential_base` is the constant `2` of
`RETRY_CONFIG`), plus, when jitter is enabled, a uniform perturbation
`u` drawn from `±25%` of the delay (the draw is modelled as an input). -/
def calculateDelay (attempt : Nat) (baseDelay maxDelay : ℚ) (jitter : Bool) (u : ℚ) : ℚ :=
  let exponentialBase : ℚ := 2
  let delay := min (baseDelay * exponentialBase ^ attempt) maxDelay
  let delay' := if jitter then delay + u else delay
  max 0 delay'

/-- Final outcome of `retry_async`: a value, a non-retryable exception
re-raised as-is, or a `RetryError` carrying the attempt count and the
last exception. -/
inductive RetryResult (E A : Type) where
  | ok (a : A)
  | raised (e : E)
  | exhausted (attempts : Nat) (last : Option E)
deriving DecidableEq, Repr

/-- Trace of one `retry_async` run: the outcome, how many times the
wrapped function was invoked, and the backoff delays slept, in order. -/
structure RetryTrace (E A : Type) where
  result : RetryResult E A
  calls : Nat
  sleeps : List ℚ
deriving DecidableEq, Repr

/-- The attempt loop of `retry_async` (resilience.py lines 108-140).
`f i` is the outcome of attempt `i`, `retryable` is
`is_retryable_exception`, `delay i` the computed backoff for attempt
`i`.  The fuel counts the remaining iterations of
`for attempt in range(max_attempts)` and is `maxAttempts - i`
throughout, so the exhausted-fuel case coincides with `i ≥ maxAttempts`
(the loop's own exit, raising `RetryError`). -/
def retryGo (f : Nat → Except E A) (retryable : E → Bool) (maxAttempts : Nat)
    (delay : Nat → ℚ) : Nat → Nat → Nat → List ℚ → Option E → RetryTrace E A
  | 0, _, calls, sleeps, lastExc => ⟨.exhausted maxAttempts lastExc, calls, sleeps⟩
  | fuel + 1, i, calls, sleeps, lastExc =>
    if i < maxAttempts then
      match f i with
      | .ok a => ⟨.ok a, calls + 1, sleeps⟩
      | .error e =>
        if !retryable e then ⟨.raised e, calls + 1, sleeps⟩
        else if i + 1 < maxAttempts then
          retryGo f retryable maxAttempts delay fuel (i + 1) (calls + 1)
            (sleeps ++ [delay i]) (some e)
        else ⟨.exhausted maxAttempts (some e), calls + 1, sleeps⟩
    else ⟨.exhausted maxAttempts lastExc, calls, sleeps⟩

/-- `retry_async` (resilience.py lines 74-140). -/
def retryAsync (f : Nat → Except E A) (retryable : E → Bool) (maxAttempts : Nat)
    (delay : Nat → ℚ) : RetryTrace E A :=
  retryGo f retryable maxAttempts delay maxAttempts 0 0 [] none

/-- Circuit breaker states (resilience.py `CircuitState`; `OPEN` is
spelled `opened` because `open` is reserved in Lean). -/
inductive CBState where
  | closed
  | opened
  | halfOpen
deriving DecidableEq, Repr

/-- `CircuitBreaker` (resilience.py lines 190-219): configuration and
mutable fields.  Times are rationals (wall-clock seconds). -/
structure CircuitBreaker where
  name : String
  failureThreshold : Nat
  successThreshold : Nat
  timeout : ℚ
  halfOpenMaxCalls : Nat
  state : CBState
  failureCount : Nat
  successCount : Nat
  lastFailureTime : Option ℚ
  halfOpenCalls : Nat
deriving DecidableEq, Repr

/-- `CircuitBreaker._check_state` (lines 237-265): whether a call is
admitted, together with the updated breaker (OPEN moves to HALF_OPEN
once `timeout` has elapsed since the last failure; HALF_OPEN admits up
to `half_open_max_calls` probes). -/
def checkState (now : ℚ) (cb : CircuitBreaker) : Bool × CircuitBreaker :=
  match cb.state with
  | .closed => (true, cb)
  | .opened =>
    match cb.lastFailureTime with
    | some t =>
      if cb.timeout ≤ now - t then
        (true, { cb with state := .halfOpen, halfOpenCalls := 0, successCount := 0 })
      else (false, cb)
    | none => (false, cb)
  | .halfOpen =>
    if cb.halfOpenCalls < cb.halfOpenMaxCalls then
      (true, { cb with halfOpenCalls := cb.halfOpenCalls + 1 })
    else (false, cb)

/-- `CircuitBreaker.record_success` (lines 267-282). -/
def recordSuccess (cb : CircuitBreaker) : CircuitBreaker :=
  match cb.state with
  | .halfOpen =>
    let sc := cb.successCount + 1
    if cb.successThreshold ≤ sc then
      { cb with state := .closed, failureCount := 0, successCount := 0 }
    else { cb with successCount := sc }
  | .closed => { cb with failureCount := 0 }
  | .opened => cb

/-- `CircuitBreaker.record_failure` (lines 284-303): stamp the failure
time, then transition (HALF_OPEN probes fail back to OPEN; CLOSED counts
consecutive failures up to the threshold). -/
def recordFailure (now : ℚ) (cb : CircuitBreaker) : CircuitBreaker :=
  let cb' := { cb with lastFailureTime := some now }
  match cb'.state with
  | .halfOpen => { cb' with state := .opened, halfOpenCalls := 0 }
  | .closed =>
    let fc := cb'.failureCount + 1
    if cb'.failureThreshold ≤ fc then { cb' with state := .opened, failureCount := fc }
    else { cb' with failureCount := fc }
  | .opened => cb'

/-- How a `CircuitBreaker.call` ends. -/
inductive CallResult where
  | rejected
  | succeeded
  | failedCall
deriving DecidableEq, Repr

/-- Result of `CircuitBreaker.call`: outcome, whether the wrapped
function was invoked, and the breaker afterwards. -/
structure CallOut where
  result : CallResult
  invoked : Bool
  cb : CircuitBreaker
deriving DecidableEq, Repr

/-- `CircuitBreaker.call` (lines 305-332): check-and-admit, invoke,
record; a rejected call raises `CircuitBreakerError` without invoking
the wrapped function.  `outcomeOk` is whether the wrapped call would
succeed. -/
def cbCall (now : ℚ) (outcomeOk : Bool) (cb : CircuitBreaker) : CallOut :=
  let r := checkState now cb
  if !r.1 then ⟨.rejected, false, r.2⟩
  else if outcomeOk then ⟨.succeeded, true, recordSuccess r.2⟩
  else ⟨.failedCall, true, recordFailure now r.2⟩

/-- A sequence of recorded failures at the given times. -/
def recordFailures (cb : CircuitBreaker) (ts : List ℚ) : CircuitBreaker :=
  ts.foldl (fun c τ => recordFailure τ c) cb

/-! ## Webhook sink (`api/webhook_routes.py`, POST `/mengla-notify`) -/

/-- Python `str(x)` for the scalar values an execution id can take. -/
def pyStr : JValue → String
  | .str s => s
  | .num n => toString n
  | .bool b => if b then "True" else "False"
  | .null => "None"
  | _ => ""

/-- Observable outcome of the webhook handler: HTTP 400, an uncaught
`AttributeError` (surfacing as HTTP 500), a heartbeat acknowledgement
with no Redis write, or a Redis write of `value` at `key` with the
given TTL followed by `{"status": "ok"}`. -/
inductive WebhookResult where
  | badRequest
  | attrError
  | skipped (reason : String)
  | stored (key : String) (value : JValue) (ttlSeconds : Nat)
deriving Repr

/-- The execution-id chain `payload.get("executionId") or
payload.get("data", {}).get("executionId") or payload.get("execution_id")`,
evaluated lazily; calling `.get` on a non-dict `data` value raises
`AttributeError` (`Except.error`). -/
def webhookExecIdE (fs : List (String × JValue)) : Except Unit JValue :=
  let e1 := dictGet (.obj fs) "executionId"
  if truthy e1 then .ok e1
  else
    let dataVal : JValue :=
      match fs.find? (fun q => q.1 = "data") with
      | some q => q.2
      | none => .obj []
    match dataVal with
    | .obj gs =>
      let e2 := dictGet (.obj gs) "executionId"
      .ok (if truthy e2 then e2 else dictGet (.obj fs) "execution_id")
    | _ => .error ()

/-- `(payload.get("status") or "").lower()`; `.lower()` on a truthy
non-string raises `AttributeError`. -/
def webhookStatusE (fs : List (String × JValue)) : Except Unit String :=
  let sv := dictGet (.obj fs) "status"
  if truthy sv then
    match sv with
    | .str t => .ok (pyLower t)
    | _ => .error ()
  else .ok ""

/-- The heartbeat status tuple `("running", "sync", "pending", "queued")`. -/
def heartbeatStatuses : List String :=
  ["running", "sync", "pending", "queued"]

/-- `payload.get("resultData") or payload.get("data") or payload`. -/
def webhookStoredValue (fs : List (String × JValue)) : JValue :=
  pyOr (dictGet (.obj fs) "resultData") (pyOr (dictGet (.obj fs) "data") (.obj fs))

/-- `mengla_webhook` (webhook_routes.py lines 39-70). -/
def menglaWebhook (payload : JValue) : WebhookResult :=
  match payload with
  | .obj fs =>
    match webhookExecIdE fs with
    | .error _ => .attrError
    | .ok execId =>
      if !truthy execId then .badRequest
      else
        match webhookStatusE fs with
        | .error _ => .attrError
        | .ok status =>
          if heartbeatStatuses.contains status then
            .skipped ("status=" ++ status)
          else
            .stored ("mengla:exec:" ++ pyStr execId) (webhookStoredValue fs) (60 * 30)
  | _ => .attrError

/-! ## Period algebra (`utils/period.py`)

Python's `datetime.date` arithmetic (`timedelta(days=1)`, `strftime`)
is embedded with a proleptic-Gregorian date type carrying its validity
invariant, exactly the invariant `datetime` enforces. -/

/-- Gregorian leap-year rule. -/
def isLeapYear (y : Nat) : Bool :=
  y % 4 = 0 && (y % 100 != 0 || y % 400 = 0)

/-- Length of month `m` (1-12) in a (non-)leap year; 0 outside 1-12. -/
def monthLength (leap : Bool) : Nat → Nat
  | 1 => 31
  | 2 => if leap then 29 else 28
  | 3 => 31
  | 4 => 30
  | 5 => 31
  | 6 => 30
  | 7 => 31
  | 8 => 31
  | 9 => 30
  | 10 => 31
  | 11 => 30
  | 12 => 31
  | _ => 0

/-- `calendar.monthrange(y, m)[1]`. -/
def daysInMonth (y m : Nat) : Nat :=
  monthLength (isLeapYear y) m

/-- A valid calendar date (the invariant `datetime.date` enforces;
`datetime` additionally caps the year at 9999, which the parser below
guarantees for all dates entering the model). -/
structure Date where
  year : Nat
  month : Nat
  day : Nat
  year_pos : 1 ≤ year
  month_ge : 1 ≤ month
  month_le : month ≤ 12
  day_ge : 1 ≤ day
  day_le : day ≤ daysInMonth year month

/-- Python `date` comparison is field-lexicographic. -/
def dateLt (a b : Date) : Bool :=
  decide (a.year < b.year ∨ (a.year = b.year ∧
    (a.month < b.month ∨ (a.month = b.month ∧ a.day < b.day))))

/-- Python `<=` on dates. -/
def dateLe (a b : Date) : Bool :=
  decide (a.year < b.year ∨ (a.year = b.year ∧
    (a.month < b.month ∨ (a.month = b.month ∧ a.day ≤ b.day))))

theorem daysInMonth_pos (y m : Nat) (h1 : 1 ≤ m) (h2 : m ≤ 12) :
    1 ≤ daysInMonth y m := by
  unfold daysInMonth
  cases hL : isLeapYear y <;> interval_cases m <;> decide

/-- `d + timedelta(days=1)`. -/
def nextDay (d : Date) : Date :=
  if h : d.day < daysInMonth d.year d.month then
    { d with day := d.day + 1, day_ge := by omega, day_le := h }
  else if h2 : d.month < 12 then
    { year := d.year, month := d.month + 1, day := 1
      year_pos := d.year_pos
      month_ge := by omega
      month_le := by omega
      day_ge := le_refl 1
      day_le := daysInMonth_pos d.year (d.month + 1) (by omega) (by omega) }
  else
    { year := d.year + 1, month := 1, day := 1
      year_pos := by omega
      month_ge := le_refl 1
      month_le := by omega
      day_ge := le_refl 1
      day_le := daysInMonth_pos (d.year + 1) 1 (by omega) (by omega) }

/-- Days in year `y`. -/
def yearLength (y : Nat) : Nat :=
  if isLeapYear y then 366 else 365

/-- Total days of the years `1..y`, in closed form (the number of leap
years among `1..y` is `y/4 - y/100 + y/400`); the recurrence is
`yearDaysSum_succ`. -/
def yearDaysSum (y : Nat) : Nat :=
  365 * y + y / 4 - y / 100 + y / 400

set_option maxHeartbeats 1000000 in
theorem yearDaysSum_succ (y : Nat) :
    yearDaysSum (y + 1) = yearDaysSum y + yearLength (y + 1) := by
  unfold yearDaysSum yearLength
  cases hL : isLeapYear (y + 1) with
  | true =>
    have hL' : (y + 1) % 4 = 0 ∧ ((y + 1) % 100 ≠ 0 ∨ (y + 1) % 400 = 0) := by
      have h := hL
      unfold isLeapYear at h
      simpa using h
    simp only [if_true]
    omega
  | false =>
    have hL' : ¬ ((y + 1) % 4 = 0 ∧ ((y + 1) % 100 ≠ 0 ∨ (y + 1) % 400 = 0)) := by
      intro hc
      have hx : isLeapYear (y + 1) = true := by
        unfold isLeapYear
        simp only [Bool.and_eq_true, bne_iff_ne, Bool.or_eq_true, decide_eq_true_eq, ne_eq]
        exact hc
      rw [hL] at hx
      exact Bool.noConfusion hx
    simp only [if_false, Bool.false_eq_true]
    omega

/-- Days of year `y` strictly before month `m` (sum of the lengths of
months `1..m-1`). -/
def daysBeforeMonth (leap : Bool) : Nat → Nat
  | 0 => 0
  | m + 1 => daysBeforeMonth leap m + monthLength leap m

/-- Rata-die style day number (1 = 0001-01-01), used as the measure for
day enumeration. -/
def toRD (d : Date) : Nat :=
  yearDaysSum (d.year - 1) + daysBeforeMonth (isLeapYear d.year) d.month + d.day

theorem daysBeforeMonth_full (leap : Bool) :
    daysBeforeMonth leap 12 + monthLength leap 12 = if leap then 366 else 365 := by
  cases leap <;> decide

theorem daysBeforeMonth_mono (leap : Bool) {m n : Nat} (h : m ≤ n) :
    daysBeforeMonth leap m ≤ daysBeforeMonth leap n := by
  induction n with
  | zero =>
    have hm : m = 0 := by omega
    subst hm
    exact le_refl _
  | succ k ih =>
    rcases Nat.eq_or_lt_of_le h with h' | h'
    · subst h'
      exact le_refl _
    · have h1 := ih (by omega)
      have h2 : daysBeforeMonth leap (k + 1)
          = daysBeforeMonth leap k + monthLength leap k := rfl
      omega

theorem yearDaysSum_mono {m n : Nat} (h : m ≤ n) :
    yearDaysSum m ≤ yearDaysSum n := by
  induction n with
  | zero =>
    have hm : m = 0 := by omega
    subst hm
    exact le_refl _
  | succ k ih =>
    rcases Nat.eq_or_lt_of_le h with h' | h'
    · subst h'
      exact le_refl _
    · have h1 := ih (by omega)
      have h2 := yearDaysSum_succ k
      have h3 : 0 < yearLength (k + 1) := by
        unfold yearLength
        split_ifs <;> omega
      omega

theorem daysBeforeMonth_day_le (y : Nat) (m d : Nat) (hm : m ≤ 12)
    (hd : d ≤ daysInMonth y m) :
    daysBeforeMonth (isLeapYear y) m + d ≤ yearLength y := by
  have h1 : daysBeforeMonth (isLeapYear y) m + d
      ≤ daysBeforeMonth (isLeapYear y) m + monthLength (isLeapYear y) m := by
    unfold daysInMonth at hd
    omega
  have h2 : daysBeforeMonth (isLeapYear y) m + monthLength (isLeapYear y) m
      = daysBeforeMonth (isLeapYear y) (m + 1) := rfl
  have h3 : daysBeforeMonth (isLeapYear y) (m + 1)
      ≤ daysBeforeMonth (isLeapYear y) 13 := daysBeforeMonth_mono _ (by omega)
  have h4 : daysBeforeMonth (isLeapYear y) 13 = yearLength y := by
    unfold yearLength
    cases isLeapYear y <;> decide
  omega

theorem yearDaysSum_pred (y : Nat) (hy : 1 ≤ y) :
    yearDaysSum y = yearDaysSum (y - 1) + yearLength y := by
  have h1 : y - 1 + 1 = y := by omega
  conv_lhs => rw [← h1]
  rw [yearDaysSum_succ, h1]

theorem toRD_nextDay (d : Date) : toRD (nextDay d) = toRD d + 1 := by
  unfold nextDay
  by_cases h : d.day < daysInMonth d.year d.month
  · simp only [dif_pos h, toRD]
    omega
  · by_cases h2 : d.month < 12
    · simp only [dif_neg h, dif_pos h2, toRD]
      have hday : d.day = daysInMonth d.year d.month := by
        have := d.day_le
        omega
      have hB : daysBeforeMonth (isLeapYear d.year) (d.month + 1)
          = daysBeforeMonth (isLeapYear d.year) d.month
            + monthLength (isLeapYear d.year) d.month := rfl
      unfold daysInMonth at hday
      omega
    · simp only [dif_neg h, dif_neg h2, toRD, Nat.add_sub_cancel]
      have hm : d.month = 12 := by
        have := d.month_le
        omega
      have hday : d.day = daysInMonth d.year d.month := by
        have := d.day_le
        omega
      have hS : yearDaysSum d.year = yearDaysSum (d.year - 1) + yearLength d.year :=
        yearDaysSum_pred d.year d.year_pos
      have hfull : daysBeforeMonth (isLeapYear d.year) 12
          + monthLength (isLeapYear d.year) 12 = yearLength d.year := by
        rw [daysBeforeMonth_full]
        unfold yearLength
        cases isLeapYear d.year <;> rfl
      have e1 : daysBeforeMonth (isLeapYear (d.year + 1)) 1 = 0 := rfl
      have e2 : d.day = monthLength (isLeapYear d.year) 12 := by
        rw [hday, hm]
        rfl
      have e3 : daysBeforeMonth (isLeapYear d.year) d.month
          = daysBeforeMonth (isLeapYear d.year) 12 := by
        rw [hm]
      omega

theorem toRD_le_of_dateLe {a b : Date} (h : dateLe a b = true) : toRD a ≤ toRD b := by
  unfold dateLe at h
  rw [decide_eq_true_eq] at h
  have ha := a.day_ge
  have hb := b.day_ge
  have ham := a.month_le
  have hbm := b.month_le
  have hale := a.day_le
  rcases h with h | ⟨hy, h⟩
  · -- strictly earlier year
    have h1 : toRD a ≤ yearDaysSum (a.year - 1) + yearLength a.year := by
      unfold toRD
      have := daysBeforeMonth_day_le a.year a.month a.day ham hale
      omega
    have h2 : yearDaysSum (a.year - 1) + yearLength a.year = yearDaysSum a.year :=
      (yearDaysSum_pred a.year a.year_pos).symm
    have h3 : yearDaysSum a.year ≤ yearDaysSum (b.year - 1) :=
      yearDaysSum_mono (by omega)
    have h4 : yearDaysSum (b.year - 1) < toRD b := by
      unfold toRD
      omega
    omega
  · rcases h with h | ⟨hm, hd⟩
    · -- same year, strictly earlier month
      unfold toRD
      rw [hy]
      have h1 : daysBeforeMonth (isLeapYear b.year) a.month + a.day
          ≤ daysBeforeMonth (isLeapYear b.year) a.month
            + monthLength (isLeapYear b.year) a.month := by
        have := a.day_le
        unfold daysInMonth at this
        rw [hy] at this
        omega
      have h2 : daysBeforeMonth (isLeapYear b.year) a.month
          + monthLength (isLeapYear b.year) a.month
          = daysBeforeMonth (isLeapYear b.year) (a.month + 1) := rfl
      have h3 : daysBeforeMonth (isLeapYear b.year) (a.month + 1)
          ≤ daysBeforeMonth (isLeapYear b.year) b.month :=
        daysBeforeMonth_mono _ (by omega)
      omega
    · -- same year and month
      unfold toRD
      rw [hy, hm]
      omega

/-- One-step-bounded form of the day loop.  Each iteration advances
`toRD` by exactly one (`toRD_nextDay`) and the loop runs while
`toRD s ≤ toRD e` (`toRD_le_of_dateLe`), so a fuel of
`toRD e + 1 - toRD s` runs the loop to completion and the
exhausted-fuel case is unreachable from `enumDays` (certified by
`enumDaysGo_fuel_irrel` below). -/
def enumDaysGo : Nat → Date → Date → List Date
  | 0, _, _ => []
  | fuel + 1, s, e => if dateLe s e then s :: enumDaysGo fuel (nextDay s) e else []

theorem enumDaysGo_fuel_irrel (f1 : Nat) : ∀ (s e : Date) (f2 : Nat),
    toRD e + 1 - toRD s ≤ f1 → toRD e + 1 - toRD s ≤ f2 →
    enumDaysGo f1 s e = enumDaysGo f2 s e := by
  induction f1 with
  | zero =>
    intro s e f2 h1 h2
    have : ¬ dateLe s e = true := by
      intro hle
      have := toRD_le_of_dateLe hle
      omega
    cases f2 with
    | zero => rfl
    | succ k2 =>
      simp only [enumDaysGo]
      rw [if_neg this]
  | succ k ih =>
    intro s e f2 h1 h2
    cases f2 with
    | zero =>
      have : ¬ dateLe s e = true := by
        intro hle
        have := toRD_le_of_dateLe hle
        omega
      simp only [enumDaysGo]
      rw [if_neg this]
    | succ k2 =>
      simp only [enumDaysGo]
      by_cases hle : dateLe s e = true
      · rw [if_pos hle, if_pos hle]
        have hstep := toRD_nextDay s
        have hb := toRD_le_of_dateLe hle
        rw [ih (nextDay s) e k2 (by omega) (by omega)]
      · rw [if_neg hle, if_neg hle]

/-- `while d <= end_d: keys.append(...); d += timedelta(days=1)` — the
enumerated dates themselves. -/
def enumDays (s e : Date) : List Date :=
  enumDaysGo (toRD e + 1 - toRD s) s e

/-- Zero-padded decimal rendering (`strftime` field). -/
def padNum (width n : Nat) : String :=
  let s := toString n
  if s.length < width then String.mk (List.replicate (width - s.length) '0') ++ s
  else s

/-- `d.strftime("%Y%m%d")`. -/
def fmt8 (d : Date) : String :=
  padNum 4 d.year ++ padNum 2 d.month ++ padNum 2 d.day

/-- `datetime(y, m, 1).strftime("%Y%m")`. -/
def fmtYM (y m : Nat) : String :=
  padNum 4 y ++ padNum 2 m

/-- Python `str.strip()` on the character list. -/
def stripChars (cs : List Char) : List Char :=
  ((cs.dropWhile Char.isWhitespace).reverse.dropWhile Char.isWhitespace).reverse

/-- Decimal digits to a number. -/
def digitsToNat (cs : List Char) : Nat :=
  cs.foldl (fun acc c => acc * 10 + (c.toNat - 48)) 0

/-- The regex `^\d{4}-\d{2}-\d{2}$` together with the field split of
`strptime(raw, "%Y-%m-%d")`. -/
def parseDashed (cs : List Char) : Option (Nat × Nat × Nat) :=
  match cs with
  | [y1, y2, y3, y4, c1, m1, m2, c2, d1, d2] =>
    if c1 = '-' && c2 = '-' && ([y1, y2, y3, y4, m1, m2, d1, d2].all Char.isDigit) then
      some (digitsToNat [y1, y2, y3, y4], digitsToNat [m1, m2], digitsToNat [d1, d2])
    else none
  | _ => none

/-- `len(raw) == 8 and raw.isdigit()` together with the field split of
`strptime(raw, "%Y%m%d")`. -/
def parseEight (cs : List Char) : Option (Nat × Nat × Nat) :=
  if cs.length = 8 && cs.all Char.isDigit then
    some (digitsToNat (cs.take 4), digitsToNat ((cs.drop 4).take 2), digitsToNat (cs.drop 6))
  else none

/-- `datetime(y, m, d)` — valid dates only, `ValueError` otherwise
(`strptime` rejects year 0000 and impossible month/day combinations). -/
def mkDate? (y m d : Nat) : Option Date :=
  if h : 1 ≤ y ∧ 1 ≤ m ∧ m ≤ 12 ∧ 1 ≤ d ∧ d ≤ daysInMonth y m then
    some ⟨y, m, d, h.1, h.2.1, h.2.2.1, h.2.2.2.1, h.2.2.2.2⟩
  else none

/-- `parse_d` inside `period_keys_in_range` (period.py lines 242-248):
strip, truncate to 10 characters, try `yyyy-MM-dd` then `yyyyMMdd`
(`strptime` raising `ValueError` on an invalid calendar date), falling
back to `datetime.utcnow()` — the fallback instant is the explicit
`today` parameter. -/
def parseD (today : Date) (s : String) : Except Unit Date :=
  let raw := (stripChars s.toList).take 10
  match parseDashed raw with
  | some (y, m, d) =>
    match mkDate? y m d with
    | some dt => .ok dt
    | none => .error ()
  | none =>
    match parseEight raw with
    | some (y, m, d) =>
      match mkDate? y m d with
      | some dt => .ok dt
      | none => .error ()
    | none => .ok today

/-- `y * 12 + m`, the month counter driving the month loop. -/
def monthIdx (y m : Nat) : Nat :=
  y * 12 + m

/-- The month loop of `period_keys_in_range`: `while (y, m) <= (ey, em)`.
The fuel equals the number of iterations for any months in `1..12` (the
only values `datetime.month` produces), making this the loop itself. -/
def monthKeysGo : Nat → Nat → Nat → Nat → Nat → List String
  | 0, _, _, _, _ => []
  | fuel + 1, y, m, ey, em =>
    if y < ey ∨ (y = ey ∧ m ≤ em) then
      fmtYM y m ::
        (if m = 12 then monthKeysGo fuel (y + 1) 1 ey em
         else monthKeysGo fuel y (m + 1) ey em)
    else []

def monthKeys (y m ey em : Nat) : List String :=
  monthKeysGo (monthIdx ey em + 1 - monthIdx y m) y m ey em

/-- `(month - 1) // 3 + 1`. -/
def quarterOf (m : Nat) : Nat :=
  (m - 1) / 3 + 1

/-- `y * 4 + q`, the quarter counter driving the quarter loop. -/
def quarterIdx (y q : Nat) : Nat :=
  y * 4 + q

/-- The quarter loop of `period_keys_in_range`: keys `f"{y}Q{q}"`. -/
def quarterKeysGo : Nat → Nat → Nat → Nat → Nat → List String
  | 0, _, _, _, _ => []
  | fuel + 1, y, q, ey, eq =>
    if y < ey ∨ (y = ey ∧ q ≤ eq) then
      (toString y ++ "Q" ++ toString q) ::
        (if q = 4 then quarterKeysGo fuel (y + 1) 1 ey eq
         else quarterKeysGo fuel y (q + 1) ey eq)
    else []

def quarterKeys (y q ey eq : Nat) : List String :=
  quarterKeysGo (quarterIdx ey eq + 1 - quarterIdx y q) y q ey eq

/-- The year loop: `while y <= ey: keys.append(str(y)); y += 1`. -/
def yearKeys (y ey : Nat) : List String :=
  (List.range (ey + 1 - y)).map (fun i => toString (y + i))

/-- `period_keys_in_range` (period.py lines 230-293).  `today` is the
`datetime.utcnow()` fallback of `parse_d`; a `ValueError` from
`strptime` propagates as `Except.error`. -/
def periodKeysInRange (today : Date) (granularity startDate endDate : String) :
    Except Unit (List String) := do
  let g := if granularity.isEmpty then "day" else pyLower granularity
  let startD ← parseD today startDate
  let endD ← parseD today endDate
  let s := if dateLt endD startD then endD else startD
  let e := if dateLt endD startD then startD else endD
  if g = "day" then
    pure ((enumDays s e).map fmt8)
  else if g = "month" then
    pure (monthKeys s.year s.month e.year e.month)
  else if g = "quarter" then
    pure (quarterKeys s.year (quarterOf s.month) e.year (quarterOf e.month))
  else if g = "year" then
    pure (yearKeys s.year e.year)
  else
    pure ((enumDays s e).map fmt8)

/-! ## Job queue (`core/queue.py`) -/

/-- Subtask status. -/
inductive SubStatus where
  | pending
  | running
  | success
  | failed
deriving DecidableEq, Repr

/-- Crawl-job status. -/
inductive JobStatus where
  | pending
  | running
  | completed
  | failed
  | cancelled
deriving DecidableEq, Repr

/-- `VALID_ACTIONS` (domain.py line 46). -/
def validActionsList : List String :=
  ["high", "hot", "chance", "industryViewV2", "industryTrendRange"]

/-- `DEFAULT_ACTIONS` (queue.py line 33). -/
def defaultActions : List String :=
  validActionsList

/-- `DEFAULT_GRANULARITIES` (queue.py line 34). -/
def defaultGranularities : List String :=
  ["day", "month", "quarter", "year"]

/-- A `crawl_subtasks` document as inserted by `create_crawl_job`. -/
structure SubTaskDoc where
  action : String
  granularity : String
  periodKey : String
  status : SubStatus
  attempts : Nat
deriving DecidableEq, Repr

/-- A `crawl_jobs` document after `create_crawl_job` finished (the
parent is inserted PENDING with zero stats, then
`stats.total_subtasks` is set to the insert count). -/
structure CrawlJobDoc where
  status : JobStatus
  statsTotalSubtasks : Nat
  statsCompleted : Nat
  statsFailed : Nat
deriving DecidableEq, Repr

/-- The period keys one (granularity, range) pair contributes to a crawl
job: `period_keys_in_range(gran, start_date, end_date)` with the
surrounding `try: ... except Exception: continue` (queue.py lines
79-82) — a raising pair contributes nothing. -/
def keysOf (today : Date) (g startDate endDate : String) : List String :=
  match periodKeysInRange today g startDate endDate with
  | .ok keys => keys
  | .error _ => []

/-- The subtask document inserted for one (action, granularity, period
key) triple: PENDING with `attempts = 0` (queue.py lines 84-93). -/
def mkSubTask (a g k : String) : SubTaskDoc :=
  { action := a, granularity := g, periodKey := k, status := .pending, attempts := 0 }

/-- `create_crawl_job` (queue.py lines 37-101): apply the `or`-defaults,
filter the actions against `VALID_ACTIONS`, and insert one PENDING
subtask with `attempts = 0` per action × granularity × period key,
skipping an (action, granularity) pair whose `period_keys_in_range`
raises. -/
def createCrawlJob (today : Date) (startDate endDate : String)
    (granularities actions : List String) : CrawlJobDoc × List SubTaskDoc :=
  let granules := if granularities.isEmpty then defaultGranularities else granularities
  let acts0 := if actions.isEmpty then defaultActions else actions
  let acts := acts0.filter (fun a => validActionsList.contains a)
  let subtasks := acts.flatMap (fun a =>
    granules.flatMap (fun g =>
      (keysOf today g startDate endDate).map (mkSubTask a g)))
  ({ status := .pending, statsTotalSubtasks := subtasks.length
     statsCompleted := 0, statsFailed := 0 }, subtasks)

/-- `finish_job_if_done` (queue.py lines 222-240): count PENDING and
RUNNING subtasks; if any remain, leave the parent unchanged; otherwise
set it to FAILED when at least one subtask is FAILED, COMPLETED
otherwise. -/
def finishJobIfDone (parent : JobStatus) (subs : List SubStatus) : JobStatus :=
  let pendingCount := subs.countP (fun s => decide (s = .pending ∨ s = .running))
  if 0 < pendingCount then parent
  else
    let failedCount := subs.countP (fun s => decide (s = .failed))
    if 0 < failedCount then .failed else .completed

/-! ## Sync-task log (`core/sync_task_log.py`) -/

/-- Sync-task status. -/
inductive SyncStatus where
  | running
  | completed
  | failed
  | cancelled
deriving DecidableEq, Repr

/-- A `sync_task_logs` row, with the attributes `create_sync_task_log`
writes (times as wall-clock rationals). -/
structure SyncRow where
  taskId : String
  taskName : String
  status : SyncStatus
  progressTotal : Nat
  progressCompleted : Nat
  progressFailed : Nat
  startedAt : Option ℚ
  finishedAt : Option ℚ
  trigger : String
  errorMessage : Option String
  createdAt : ℚ
  updatedAt : ℚ
deriving DecidableEq, Repr

/-- The `sync_task_logs` collection (keyed by ObjectId string) together
with the process-local cancelled set (`_cancelled_logs`). -/
structure SyncTaskState where
  db : List (String × SyncRow)
  cancelledLogs : List String
deriving DecidableEq, Repr

/-- `ObjectId(log_id)` succeeds exactly on 24-character hex strings. -/
def isValidObjectId (s : String) : Bool :=
  s.length = 24 && s.toList.all (fun c =>
    c.isDigit || ('a' ≤ c && c ≤ 'f') || ('A' ≤ c && c ≤ 'F'))

/-- Result of `cancel_sync_task`: the reported success flag and the
state afterwards. -/
structure CancelOut where
  success : Bool
  st : SyncTaskState
deriving DecidableEq, Repr

/-- `cancel_sync_task` (sync_task_log.py lines 271-317): an atomic
`find_one_and_update` with precondition `status = RUNNING` that sets
CANCELLED, the cancel message, `finished_at` and `updated_at`; on a hit
the log id is added to the cancelled set (`_mark_cancelled`) and success
is reported; otherwise (invalid id, missing row, or not RUNNING) failure
is reported and nothing changes. -/
def cancelSyncTask (now : ℚ) (logId : String) (st : SyncTaskState) : CancelOut :=
  if !isValidObjectId logId then ⟨false, st⟩
  else
    match aget st.db logId with
    | some row =>
      if row.status = SyncStatus.running then
        let row' := { row with
          status := SyncStatus.cancelled
          errorMessage := some "用户手动取消"
          finishedAt := some now
          updatedAt := now }
        ⟨true, { db := aset st.db logId row', cancelledLogs := logId :: st.cancelledLogs }⟩
      else ⟨false, st⟩
    | none => ⟨false, st⟩

/-! ## Concrete instances used by counterexamples and witnesses -/

/-- A fixed instant standing in for `datetime.utcnow()` where a parser
fallback would need it (never reached on the inputs below). -/
def modelToday : Date :=
  ⟨2025, 6, 15, by omega, by omega, by omega, by omega, by decide⟩

/-- Requested trend period keys `20250101..20250103`. -/
def trendKeys3 : List String :=
  ["20250101", "20250102", "20250103"]

/-- A store holding, for one of the three requested keys, a document
whose `data` is the empty dict (falsy). -/
def trendCexStore : List (String × L3Doc) :=
  [("20250101", ⟨.obj [], "fresh", 0⟩)]

/-- A well-formed single stored trend point. -/
def trendGoodPoint : JValue :=
  .obj [("timest", .str "2025-01-01"), ("value", .num 7)]

/-- A store holding a well-formed trend document for one of the three
requested keys. -/
def trendGoodStore : List (String × L3Doc) :=
  [("20250101",
    ⟨.obj [("industryTrendRange", .obj [("data", .arr [trendGoodPoint])])], "fresh", 0⟩)]

/-- An upstream result that is empty under the policy: `code != 0`. -/
def emptyHighResult : JValue :=
  .obj [("highList", .obj [("code", .num 1)])]

/-- The identity tuple of scenario S1. -/
def s1Key : CacheKey :=
  ⟨"high", "100001", "day", "20250115"⟩

/-- Cold stores: all three layers empty. -/
def coldState : CacheState :=
  ⟨[], [], []⟩

/-- A non-empty opaque payload value. -/
def sampleValue : JValue :=
  .obj [("highList", .obj [("code", .num 0), ("data", .obj [("list", .arr [.num 1])])])]

/-- Dedup scenario: two callers, nothing in flight yet. -/
def dedupInit : DedupState :=
  ⟨none, 0, [], [.start, .start], 0⟩

/-- After caller 0 arrived and registered task 0. -/
def dedupAfter0 : DedupState :=
  ⟨some 0, 1, [], [.waiting 0 true, .start], 1⟩

/-- After caller 1 also arrived and joined task 0's future. -/
def dedupAfter1 : DedupState :=
  ⟨some 0, 1, [], [.waiting 0 true, .waiting 0 false], 1⟩

/-- A breaker fresh out of `CircuitBreaker.__init__` with the default
configuration (5 / 3 / 60 s / 3). -/
def freshBreaker : CircuitBreaker :=
  ⟨"mengla_hot", 5, 3, 60, 3, .closed, 0, 0, none, 0⟩

/-- A RUNNING sync-task row. -/
def runningRow : SyncRow :=
  ⟨"mengla_granular_force", "手动采集", .running, 10, 2, 0, some 100, none, "manual",
   none, 100, 120⟩

/-- A COMPLETED sync-task row. -/
def completedRow : SyncRow :=
  ⟨"mengla_granular_force", "手动采集", .completed, 10, 10, 0, some 100, some 200,
   "manual", none, 100, 200⟩

/-- A syntactically valid ObjectId string. -/
def oid1 : String :=
  "65f1a2b3c4d5e6f701234567"

/-! # Helper lemmas -/

theorem aget_aset_same {K V : Type} [DecidableEq K] (m : List (K × V)) (k : K) (v : V) :
    aget (aset m k v) k = some v := by
  simp [aget, aset, List.find?]

theorem layerGet_aset (m : List (CacheKey × JValue)) (k : CacheKey) (v : JValue) :
    layerGet (aset m k v) k = v := by
  simp [layerGet, aget_aset_same]

/-! # Claim theorems -/

/-- C8: `finish_job_if_done` leaves the parent's status unchanged while at
least one subtask is PENDING or RUNNING; once no subtask is PENDING or
RUNNING it sets the parent to FAILED exactly when at least one subtask is
FAILED, and to COMPLETED otherwise. -/
theorem finish_job_if_done_spec (parent : JobStatus) (subs : List SubStatus) :
    ((∃ s ∈ subs, s = SubStatus.pending ∨ s = SubStatus.running) →
      finishJobIfDone parent subs = parent) ∧
    ((∀ s ∈ subs, s ≠ SubStatus.pending ∧ s ≠ SubStatus.running) →
      ((∃ s ∈ subs, s = SubStatus.failed) →
        finishJobIfDone parent subs = JobStatus.failed) ∧
      ((∀ s ∈ subs, s ≠ SubStatus.failed) →
        finishJobIfDone parent subs = JobStatus.completed)) := by
  constructor
  · intro h
    have hpos : 0 < subs.countP (fun s => decide (s = .pending ∨ s = .running)) := by
      rw [List.countP_pos_iff]
      obtain ⟨s, hs, hp⟩ := h
      exact ⟨s, hs, by simpa using hp⟩
    simp only [finishJobIfDone, if_pos hpos]
  · intro h
    have hz : subs.countP (fun s => decide (s = .pending ∨ s = .running)) = 0 := by
      rw [List.countP_eq_zero]
      intro a ha
      have := h a ha
      simp only [decide_eq_true_eq]
      tauto
    constructor
    · intro hex
      have hpos : 0 < subs.countP (fun s => decide (s = .failed)) := by
        rw [List.countP_pos_iff]
        obtain ⟨s, hs, hp⟩ := hex
        exact ⟨s, hs, by simpa using hp⟩
      simp only [finishJobIfDone, hz, if_neg (lt_irrefl 0), if_pos hpos]
    · intro hall
      have hfz : subs.countP (fun s => decide (s = .failed)) = 0 := by
        rw [List.countP_eq_zero]
        intro a ha
        simpa using hall a ha
      simp only [finishJobIfDone, hz, hfz, if_neg (lt_irrefl 0)]

/-- Witness for C8 at concrete subtask lists. -/
theorem finish_job_if_done_spec_witness :
    finishJobIfDone JobStatus.running [SubStatus.success, SubStatus.running]
        = JobStatus.running ∧
    finishJobIfDone JobStatus.running [SubStatus.success, SubStatus.failed]
        = JobStatus.failed ∧
    finishJobIfDone JobStatus.running [SubStatus.success, SubStatus.success]
        = JobStatus.completed := by
  refine ⟨?_, ?_, ?_⟩
  · exact (finish_job_if_done_spec JobStatus.running _).1
      ⟨SubStatus.running, by decide, by decide⟩
  · exact ((finish_job_if_done_spec JobStatus.running _).2 (by decide)).1
      ⟨SubStatus.failed, by decide, by decide⟩
  · exact ((finish_job_if_done_spec JobStatus.running _).2 (by decide)).2 (by decide)

/-- C10: `cancel_sync_task` is atomic on the sync-task log: a RUNNING row
transitions to CANCELLED with `finished_at` set and the id is added to
the process-local cancelled set, reporting success; an invalid id, a
missing row or a non-RUNNING row reports failure and changes nothing. -/
theorem cancel_sync_task_spec (now : ℚ) (logId : String) (st : SyncTaskState) :
    (∀ row, isValidObjectId logId = true → aget st.db logId = some row →
      row.status = SyncStatus.running →
      cancelSyncTask now logId st =
        ⟨true, ⟨aset st.db logId { row with
            status := SyncStatus.cancelled
            errorMessage := some "用户手动取消"
            finishedAt := some now
            updatedAt := now },
          logId :: st.cancelledLogs⟩⟩) ∧
    (isValidObjectId logId = false → cancelSyncTask now logId st = ⟨false, st⟩) ∧
    (aget st.db logId = none → cancelSyncTask now logId st = ⟨false, st⟩) ∧
    (∀ row, aget st.db logId = some row → row.status ≠ SyncStatus.running →
      cancelSyncTask now logId st = ⟨false, st⟩) := by
  refine ⟨?_, ?_, ?_, ?_⟩
  · intro row hvalid hget hrun
    simp only [cancelSyncTask, hvalid, hget, Bool.not_true, Bool.false_eq_true,
      if_neg, if_pos hrun]
    simp
  · intro hvalid
    simp [cancelSyncTask, hvalid]
  · intro hget
    by_cases hvalid : isValidObjectId logId
    · simp [cancelSyncTask, hvalid, hget]
    · simp [cancelSyncTask, Bool.eq_false_iff.mpr hvalid]
  · intro row hget hrun
    by_cases hvalid : isValidObjectId logId
    · simp [cancelSyncTask, hvalid, hget, hrun]
    · simp [cancelSyncTask, Bool.eq_false_iff.mpr hvalid]

/-- Witness for C10: cancelling a RUNNING row succeeds and records the
transition; cancelling a COMPLETED row fails and changes nothing. -/
theorem cancel_sync_task_spec_witness :
    cancelSyncTask 150 oid1 ⟨[(oid1, runningRow)], []⟩ =
      ⟨true, ⟨aset [(oid1, runningRow)] oid1 { runningRow with
          status := SyncStatus.cancelled
          errorMessage := some "用户手动取消"
          finishedAt := some (150 : ℚ)
          updatedAt := (150 : ℚ) },
        [oid1]⟩⟩ ∧
    cancelSyncTask 150 oid1 ⟨[(oid1, completedRow)], []⟩ =
      ⟨false, ⟨[(oid1, completedRow)], []⟩⟩ := by
  constructor
  · exact (cancel_sync_task_spec 150 oid1 ⟨[(oid1, runningRow)], []⟩).1 runningRow
      (by decide) rfl rfl
  · exact (cancel_sync_task_spec 150 oid1 ⟨[(oid1, completedRow)], []⟩).2.2.2 completedRow
      rfl (by decide)

/-- C7: `CacheManager.get` probes L1, then L2, then L3, returning the
first hit with its source tag; it promotes an L2 hit into L1 and an L3
hit into both L1 and L2, so a subsequent get of the same identity hits
L1 or L2.  The durable layer is never written by a get, and the cache
manager has no upstream dependency at all (its state is only the three
layers). -/
theorem cache_manager_get_spec (st : CacheState) (k : CacheKey) :
    ((cmGet st k).2.2.l3 = st.l3) ∧
    (∀ v, layerGet st.l1 k = v → isNull v = false →
      cmGet st k = (some v, "l1", st)) ∧
    (∀ v, isNull (layerGet st.l1 k) = true → layerGet st.l2 k = v → isNull v = false →
      cmGet st k = (some v, "l2", { st with l1 := aset st.l1 k v }) ∧
      (cmGet { st with l1 := aset st.l1 k v } k).1 = some v ∧
      ((cmGet { st with l1 := aset st.l1 k v } k).2.1 = "l1" ∨
        (cmGet { st with l1 := aset st.l1 k v } k).2.1 = "l2")) ∧
    (∀ doc, isNull (layerGet st.l1 k) = true → isNull (layerGet st.l2 k) = true →
      aget st.l3 k = some doc → isNull doc.data = false →
      cmGet st k = (some doc.data, "l3",
        { st with l1 := aset st.l1 k doc.data, l2 := aset st.l2 k doc.data }) ∧
      (cmGet { st with l1 := aset st.l1 k doc.data, l2 := aset st.l2 k doc.data } k).1
        = some doc.data ∧
      ((cmGet { st with l1 := aset st.l1 k doc.data, l2 := aset st.l2 k doc.data } k).2.1
          = "l1" ∨
       (cmGet { st with l1 := aset st.l1 k doc.data, l2 := aset st.l2 k doc.data } k).2.1
          = "l2")) := by
  refine ⟨?_, ?_, ?_, ?_⟩
  · simp only [cmGet]
    split
    · rfl
    · split
      · rfl
      · split
        · split
          · rfl
          · rfl
        · rfl
  · intro v hv hnn
    simp only [cmGet, hv, hnn, Bool.not_false, if_pos]
  · intro v h1 hv hnn
    have hget : cmGet st k = (some v, "l2", { st with l1 := aset st.l1 k v }) := by
      simp [cmGet, h1, hv, hnn]
    refine ⟨hget, ?_, ?_⟩
    · simp only [cmGet, layerGet_aset, hnn, Bool.not_false, if_pos]
    · left
      simp only [cmGet, layerGet_aset, hnn, Bool.not_false, if_pos]
  · intro doc h1 h2 h3 hnn
    have hget : cmGet st k = (some doc.data, "l3",
        { st with l1 := aset st.l1 k doc.data, l2 := aset st.l2 k doc.data }) := by
      simp [cmGet, h1, h2, h3, hnn]
    refine ⟨hget, ?_, ?_⟩
    · simp only [cmGet, layerGet_aset, hnn, Bool.not_false, if_pos]
    · left
      simp only [cmGet, layerGet_aset, hnn, Bool.not_false, if_pos]

/-- Witness for C7: with empty L1/L2 and a stored L3 document, the get
returns the document's data tagged `l3`, and the subsequent get of the
same identity is an L1 hit. -/
theorem cache_manager_get_spec_witness :
    cmGet ⟨[], [], [(s1Key, ⟨sampleValue, "fresh", 42⟩)]⟩ s1Key
      = (some sampleValue, "l3",
         ⟨aset [] s1Key sampleValue, aset [] s1Key sampleValue,
          [(s1Key, ⟨sampleValue, "fresh", 42⟩)]⟩) ∧
    (cmGet ⟨aset [] s1Key sampleValue, aset [] s1Key sampleValue,
        [(s1Key, ⟨sampleValue, "fresh", 42⟩)]⟩ s1Key).2.1 = "l1" := by
  have h := (cache_manager_get_spec ⟨[], [], [(s1Key, ⟨sampleValue, "fresh", 42⟩)]⟩
      s1Key).2.2.2 ⟨sampleValue, "fresh", 42⟩ rfl rfl rfl rfl
  exact ⟨h.1, rfl⟩

/-- C6 counterexample: the payload `{"data": 5}` carries no execution id
anywhere, yet the handler raises `AttributeError` (surfacing as HTTP
500) instead of rejecting with HTTP 400 — `payload.get("data", {})`
returns `5` and `.get` on an int raises. -/
theorem webhook_claim_counterexample :
    menglaWebhook (.obj [("data", .num 5)]) = WebhookResult.attrError ∧
    WebhookResult.attrError ≠ WebhookResult.badRequest :=
  ⟨rfl, fun h => WebhookResult.noConfusion h⟩

/-- C6 (amended): for a dict payload on which the execution-id and
status extractions do not raise — `data`, when consulted, is a dict and
`status`, when truthy, is a string — the handler returns 400 when the
extracted execution id is falsy; acknowledges-and-skips (writing
nothing) when the lower-cased status is a heartbeat; and otherwise
stores `resultData or data or payload` under `mengla:exec:<id>` with a
TTL of 1800 seconds and returns `{"status": "ok"}`. -/
theorem webhook_spec (fs : List (String × JValue)) :
    (∀ execId, webhookExecIdE fs = .ok execId → truthy execId = false →
      menglaWebhook (.obj fs) = .badRequest) ∧
    (∀ execId status, webhookExecIdE fs = .ok execId → truthy execId = true →
      webhookStatusE fs = .ok status → heartbeatStatuses.contains status = true →
      menglaWebhook (.obj fs) = .skipped ("status=" ++ status)) ∧
    (∀ execId status, webhookExecIdE fs = .ok execId → truthy execId = true →
      webhookStatusE fs = .ok status → heartbeatStatuses.contains status = false →
      menglaWebhook (.obj fs) = .stored ("mengla:exec:" ++ pyStr execId)
        (webhookStoredValue fs) 1800) := by
  refine ⟨?_, ?_, ?_⟩
  · intro execId hex hf
    simp [menglaWebhook, hex, hf]
  · intro execId status hex ht hst hh
    have hmem : status ∈ heartbeatStatuses := by simpa using hh
    simp [menglaWebhook, hex, ht, hst, hmem]
  · intro execId status hex ht hst hh
    have hmem : status ∉ heartbeatStatuses := by simpa using hh
    simp [menglaWebhook, hex, ht, hst, hmem]

/-- Witness for C6: a falsy execution id is rejected with 400; a RUNNING
heartbeat is acknowledged without storing; a real result payload is
stored under `mengla:exec:E1` with TTL 1800. -/
theorem webhook_spec_witness :
    menglaWebhook (.obj [("executionId", .str "")]) = .badRequest ∧
    menglaWebhook (.obj [("executionId", .str "E1"), ("status", .str "RUNNING")])
      = .skipped "status=running" ∧
    menglaWebhook (.obj [("executionId", .str "E1"),
        ("resultData", .obj [("x", .num 1)])])
      = .stored "mengla:exec:E1" (.obj [("x", .num 1)]) 1800 := by
  refine ⟨?_, ?_, ?_⟩
  · exact (webhook_spec [("executionId", .str "")]).1 .null rfl rfl
  · exact (webhook_spec [("executionId", .str "E1"), ("status", .str "RUNNING")]).2.1
      (.str "E1") "running" rfl rfl rfl rfl
  · exact (webhook_spec [("executionId", .str "E1"),
      ("resultData", .obj [("x", .num 1)])]).2.2
      (.str "E1") "" rfl rfl rfl rfl

/-- C2 evaluated at the failing input (the claim is right, the code is
wrong): for the non-trend identity of scenario S1 with all stores cold
and an upstream result that is empty under the policy (`code != 0`),
`_fetch_and_persist` itself skips its Mongo/Redis writes, but
`query_mengla` then calls `CacheManager.set` unconditionally, so after
the query the empty value sits in L1, L2 and L3 — the stored state does
not equal the state before. -/
theorem query_mengla_empty_write_bug :
    shouldPersistResult emptyHighResult "high" = false ∧
    coldState.l1 = [] ∧ coldState.l2 = [] ∧ coldState.l3 = [] ∧
    (queryMenglaNonTrend coldState s1Key emptyHighResult).1.l1
      = [(s1Key, emptyHighResult)] ∧
    (queryMenglaNonTrend coldState s1Key emptyHighResult).1.l2
      = [(s1Key, emptyHighResult)] ∧
    (queryMenglaNonTrend coldState s1Key emptyHighResult).1.l3
      = [(s1Key, ⟨emptyHighResult, "fresh", 0⟩)] ∧
    (queryMenglaNonTrend coldState s1Key emptyHighResult).2
      = (emptyHighResult, "fresh") :=
  ⟨rfl, rfl, rfl, rfl, rfl, rfl, rfl, rfl⟩

/-- C1 counterexample: the durable store holds a document for one of the
three requested period keys (so "some but not all" keys are covered),
but that document's `data` is the empty dict; no point survives the
merge loop, `if points:` fails, and the collector falls through to the
upstream fetch instead of returning a partial merge. -/
theorem trend_claim_counterexample :
    (∃ k ∈ trendKeys3, (trendByKey trendCexStore trendKeys3 k).isSome = true) ∧
    (∃ k ∈ trendKeys3, trendByKey trendCexStore trendKeys3 k = none) ∧
    trendRead trendCexStore trendKeys3 = .upstream := by
  exact ⟨⟨"20250101", by decide, by decide⟩, ⟨"20250102", by decide, rfl⟩, rfl⟩

/-- C1 (amended): for a trend query whose period keys are covered by the
durable store for some but not all keys, *and whose found documents
yield at least one trend point*, the collector returns the merged
(sorted) points together with the partial counts `requested` (number of
requested keys) and `found` (number of found documents), and does not
fall through to the upstream fetch. -/
theorem trend_some_keys_spec (store : List (String × L3Doc)) (ks : List String)
    (hsome : ∃ k ∈ ks, (trendByKey store ks k).isSome = true)
    (hmiss : ∃ k ∈ ks, trendByKey store ks k = none)
    (hpts : collectSomePoints (trendByKey store ks) ks ≠ []) :
    trendRead store ks =
      .hitSome (mergedTrend (collectSomePoints (trendByKey store ks) ks))
        ks.length (trendDocs store ks).length ∧
    trendRead store ks ≠ .upstream := by
  obtain ⟨k1, hk1, h1⟩ := hsome
  obtain ⟨k2, hk2, h2⟩ := hmiss
  have hne : ks.isEmpty = false := by
    rw [List.isEmpty_eq_false]
    exact List.ne_nil_of_mem hk1
  have hall : ks.all (fun k => (trendByKey store ks k).isSome) = false := by
    rw [List.all_eq_false]
    exact ⟨k2, hk2, by simp [h2]⟩
  have hdocs : (trendDocs store ks).isEmpty = false := by
    rw [List.isEmpty_eq_false]
    intro hd
    have he : trendByKey store ks k1 = none := by
      rw [trendByKey, hd]
      rfl
    rw [he] at h1
    simp at h1
  have hmain : trendRead store ks =
      .hitSome (mergedTrend (collectSomePoints (trendByKey store ks) ks))
        ks.length (trendDocs store ks).length := by
    have hptsb : (collectSomePoints (trendByKey store ks) ks).isEmpty = false := by
      rw [List.isEmpty_eq_false]
      exact hpts
    simp only [trendRead, hne, hall, hdocs, hptsb, Bool.not_false, Bool.and_false,
      Bool.false_and, Bool.and_true, Bool.true_and, if_false, Bool.false_eq_true, if_true]
  refine ⟨hmain, ?_⟩
  rw [hmain]
  intro hc
  exact TrendReadOutcome.noConfusion hc

/-- Witness for the amended C1: a store covering one of three requested
keys with one well-formed point merges that point and reports
`requested = 3`, `found = 1`. -/
theorem trend_some_keys_spec_witness :
    trendRead trendGoodStore trendKeys3 =
      .hitSome (mergedTrend (collectSomePoints (trendByKey trendGoodStore trendKeys3)
          trendKeys3))
        trendKeys3.length (trendDocs trendGoodStore trendKeys3).length ∧
    trendKeys3.length = 3 ∧
    (trendDocs trendGoodStore trendKeys3).length = 1 ∧
    collectSomePoints (trendByKey trendGoodStore trendKeys3) trendKeys3
      = [trendGoodPoint] := by
  have h := trend_some_keys_spec trendGoodStore trendKeys3
    ⟨"20250101", by decide, by decide⟩
    ⟨"20250102", by decide, rfl⟩
    (by
      intro hc
      rw [show collectSomePoints (trendByKey trendGoodStore trendKeys3) trendKeys3
          = [trendGoodPoint] from rfl] at hc
      exact List.noConfusion hc)
  exact ⟨h.1, rfl, rfl, rfl⟩

theorem recordFailures_opens (ts : List ℚ) : ∀ (cb : CircuitBreaker),
    cb.state = .closed → cb.failureCount + ts.length = cb.failureThreshold →
    ∀ (h3 : ts ≠ []),
    (recordFailures cb ts).state = .opened ∧
    (recordFailures cb ts).lastFailureTime = some (ts.getLast h3) ∧
    (recordFailures cb ts).timeout = cb.timeout := by
  induction ts with
  | nil =>
    intro cb h1 h2 h3
    exact absurd rfl h3
  | cons t rest ih =>
    intro cb h1 h2 h3
    have hstep : recordFailures cb (t :: rest) = recordFailures (recordFailure t cb) rest :=
      rfl
    cases rest with
    | nil =>
      have hthr : cb.failureThreshold ≤ cb.failureCount + 1 := by
        simp only [List.length_cons, List.length_nil] at h2
        omega
      have hone : recordFailures cb [t] = recordFailure t cb := rfl
      rw [hone]
      unfold recordFailure
      simp only [h1]
      rw [if_pos hthr]
      exact ⟨rfl, rfl, rfl⟩
    | cons t2 rest2 =>
      have hrest : t2 :: rest2 ≠ [] := by simp
      have hfc : ¬ cb.failureThreshold ≤ cb.failureCount + 1 := by
        simp only [List.length_cons] at h2
        omega
      have hcb1 : recordFailure t cb =
          { cb with lastFailureTime := some t, failureCount := cb.failureCount + 1 } := by
        unfold recordFailure
        simp only [h1]
        rw [if_neg hfc]
      have ih' := ih { cb with lastFailureTime := some t, failureCount := cb.failureCount + 1 }
        h1 (by simp only [List.length_cons] at h2 ⊢; omega) hrest
      rw [hstep, hcb1]
      refine ⟨ih'.1, ?_, ih'.2.2⟩
      rw [List.getLast_cons hrest]
      exact ih'.2.1

/-- C4: after `failure_threshold` consecutive recorded failures in
CLOSED the breaker is OPEN; any call made before `timeout` has elapsed
since the last failure is rejected (`CircuitBreakerError`) without
invoking the wrapped function; once `timeout` has elapsed, the next
call's state check transitions the breaker to HALF_OPEN and the call is
admitted. -/
theorem circuit_breaker_spec (cb : CircuitBreaker) (ts : List ℚ)
    (h1 : cb.state = .closed) (h2 : cb.failureCount = 0)
    (h3 : ts.length = cb.failureThreshold) (h4 : ts ≠ []) :
    (recordFailures cb ts).state = .opened ∧
    (∀ (t : ℚ) (ok : Bool), t - ts.getLast h4 < cb.timeout →
      cbCall t ok (recordFailures cb ts)
        = ⟨.rejected, false, recordFailures cb ts⟩) ∧
    (∀ (t : ℚ) (ok : Bool), cb.timeout ≤ t - ts.getLast h4 →
      (checkState t (recordFailures cb ts)).1 = true ∧
      (checkState t (recordFailures cb ts)).2.state = .halfOpen ∧
      (cbCall t ok (recordFailures cb ts)).invoked = true) := by
  obtain ⟨hst, hlf, hto⟩ := recordFailures_opens ts cb h1 (by omega) h4
  refine ⟨hst, ?_, ?_⟩
  · intro t ok hlt
    have hcheck : checkState t (recordFailures cb ts) = (false, recordFailures cb ts) := by
      simp only [checkState, hst, hlf]
      rw [if_neg (by rw [hto]; linarith)]
    simp only [cbCall, hcheck, Bool.not_false, if_pos]
  · intro t ok hge
    have hcheck : checkState t (recordFailures cb ts) =
        (true, { recordFailures cb ts with
          state := .halfOpen, halfOpenCalls := 0, successCount := 0 }) := by
      simp only [checkState, hst, hlf]
      rw [if_pos (by rw [hto]; linarith)]
    refine ⟨by rw [hcheck], by rw [hcheck], ?_⟩
    simp only [cbCall, hcheck, Bool.not_true, Bool.false_eq_true, if_false]
    cases ok <;> simp

/-- Witness for C4: the default breaker (threshold 5, timeout 60 s)
opens after five failures at times 10..50; a call at t=69 (19 s after
the last failure) is rejected without invocation; a call at t=110
(60 s elapsed) moves the breaker to HALF_OPEN and is admitted. -/
theorem circuit_breaker_spec_witness :
    (recordFailures freshBreaker [10, 20, 30, 40, 50]).state = .opened ∧
    cbCall 69 true (recordFailures freshBreaker [10, 20, 30, 40, 50])
      = ⟨.rejected, false, recordFailures freshBreaker [10, 20, 30, 40, 50]⟩ ∧
    (checkState 110 (recordFailures freshBreaker [10, 20, 30, 40, 50])).2.state
      = .halfOpen ∧
    (cbCall 110 true (recordFailures freshBreaker [10, 20, 30, 40, 50])).invoked
      = true := by
  have hne : ([10, 20, 30, 40, 50] : List ℚ) ≠ [] := by simp
  have h := circuit_breaker_spec freshBreaker [10, 20, 30, 40, 50] rfl rfl rfl hne
  have hl : ([10, 20, 30, 40, 50] : List ℚ).getLast hne = 50 := rfl
  refine ⟨h.1, h.2.1 69 true ?_, (h.2.2 110 true ?_).2.1, (h.2.2 110 true ?_).2.2⟩
  · rw [hl]
    show (69 : ℚ) - 50 < (60 : ℚ)
    norm_num
  · rw [hl]
    show (60 : ℚ) ≤ 110 - 50
    norm_num
  · rw [hl]
    show (60 : ℚ) ≤ 110 - 50
    norm_num

theorem retryGo_raises {E A : Type} (f : Nat → Except E A) (retryable : E → Bool)
    (maxA : Nat) (delay : Nat → ℚ) (m : Nat) :
    ∀ (j calls : Nat) (sleeps : List ℚ) (lastExc : Option E) (fuel : Nat) (e : E),
    maxA - j ≤ fuel →
    j + m < maxA → f (j + m) = .error e → retryable e = false →
    (∀ i, j ≤ i → i < j + m → ∃ e', f i = .error e' ∧ retryable e' = true) →
    retryGo f retryable maxA delay fuel j calls sleeps lastExc =
      ⟨.raised e, calls + m + 1, sleeps ++ (List.range' j m).map delay⟩ := by
  induction m with
  | zero =>
    intro j calls sleeps lastExc fuel e hfuel hjm hk hnr hprev
    cases fuel with
    | zero => omega
    | succ fu =>
      simp only [retryGo]
      rw [if_pos (by omega : j < maxA)]
      simp only [Nat.add_zero] at hk
      simp only [hk, hnr, Bool.not_false, if_pos, List.range', List.map_nil,
        List.append_nil]
  | succ m' ih =>
    intro j calls sleeps lastExc fuel e hfuel hjm hk hnr hprev
    cases fuel with
    | zero => omega
    | succ fu =>
      obtain ⟨e', hfj, hre⟩ := hprev j (le_refl j) (by omega)
      simp only [retryGo]
      rw [if_pos (by omega : j < maxA)]
      simp only [hfj, hre, Bool.not_true, Bool.false_eq_true, if_false]
      rw [if_pos (by omega : j + 1 < maxA)]
      have hrec := ih (j + 1) (calls + 1) (sleeps ++ [delay j]) (some e') fu e
        (by omega) (by omega)
        (by rw [show j + 1 + m' = j + (m' + 1) by omega]; exact hk) hnr
        (fun i hi1 hi2 => hprev i (by omega) (by omega))
      rw [hrec, List.range'_succ]
      simp only [List.map_cons, List.append_assoc, List.singleton_append]
      congr 1
      omega

/-- C5: with jitter disabled the computed backoff is exactly
`min(base * 2**n, max)`; with jitter enabled and a uniform perturbation
within ±25% of that value the backoff stays within ±25% of it and is
never negative; and `retry_async` re-raises a non-retryable exception
from the failing attempt immediately — the attempt count is exactly the
failing attempt's index plus one and no backoff is slept after it. -/
theorem retry_resilience_spec :
    (∀ (n : Nat) (base maxD u : ℚ), 0 < base → 0 < maxD →
      calculateDelay n base maxD false u = min (base * 2 ^ n) maxD) ∧
    (∀ (n : Nat) (base maxD u : ℚ), 0 < base → 0 < maxD →
      |u| ≤ min (base * 2 ^ n) maxD / 4 →
      0 ≤ calculateDelay n base maxD true u ∧
      3 / 4 * min (base * 2 ^ n) maxD ≤ calculateDelay n base maxD true u ∧
      calculateDelay n base maxD true u ≤ 5 / 4 * min (base * 2 ^ n) maxD) ∧
    (∀ (E A : Type) (f : Nat → Except E A) (retryable : E → Bool) (maxA : Nat)
      (delay : Nat → ℚ) (k : Nat) (e : E),
      k < maxA → f k = .error e → retryable e = false →
      (∀ i, i < k → ∃ e', f i = .error e' ∧ retryable e' = true) →
      retryAsync f retryable maxA delay
        = ⟨.raised e, k + 1, (List.range k).map delay⟩) := by
  refine ⟨?_, ?_, ?_⟩
  · intro n base maxD u hb hm
    have hpos : (0 : ℚ) ≤ min (base * 2 ^ n) maxD := by
      apply le_min
      · positivity
      · linarith
    simp only [calculateDelay, if_false, Bool.false_eq_true]
    exact max_eq_right hpos
  · intro n base maxD u hb hm hu
    have hpos : (0 : ℚ) ≤ min (base * 2 ^ n) maxD := by
      apply le_min
      · positivity
      · linarith
    rw [abs_le] at hu
    have hval : calculateDelay n base maxD true u = min (base * 2 ^ n) maxD + u := by
      simp only [calculateDelay, if_true]
      exact max_eq_right (by linarith)
    rw [hval]
    refine ⟨by linarith, by linarith, by linarith⟩
  · intro E A f retryable maxA delay k e hk hf hnr hprev
    have h := retryGo_raises f retryable maxA delay k 0 0 [] none maxA e
      (by omega) (by omega) (by rw [Nat.zero_add]; exact hf) hnr
      (fun i hi1 hi2 => hprev i (by omega))
    rw [retryAsync, h, List.range_eq_range']
    simp

/-- Witness for C5: `calculate_delay(2, 1, 60)` is exactly 4 without
jitter; with jitter `u = 1/2` it stays in `[3, 5]` and is nonnegative;
and with attempt 0 retryable and attempt 1 non-retryable out of 3
attempts, `retry_async` raises after exactly 2 calls and 1 sleep. -/
theorem retry_resilience_spec_witness :
    calculateDelay 2 1 60 false 0 = 4 ∧
    (0 ≤ calculateDelay 2 1 60 true (1 / 2) ∧
      3 ≤ calculateDelay 2 1 60 true (1 / 2) ∧
      calculateDelay 2 1 60 true (1 / 2) ≤ 5) ∧
    retryAsync (fun i => (Except.error i : Except Nat Unit)) (fun e => decide (e = 0)) 3
      (fun _ => (1 : ℚ)) = ⟨.raised 1, 2, [(1 : ℚ)]⟩ := by
  obtain ⟨p1, p2, p3⟩ := retry_resilience_spec
  refine ⟨?_, ?_, ?_⟩
  · have h := p1 2 1 60 0 (by norm_num) (by norm_num)
    rw [h]
    norm_num [min_def]
  · have h := p2 2 1 60 (1 / 2) (by norm_num) (by norm_num)
      (by rw [abs_of_pos (by norm_num : (0 : ℚ) < 1 / 2)]; norm_num [min_def])
    have hmin : min ((1 : ℚ) * 2 ^ 2) 60 = 4 := by norm_num [min_def]
    refine ⟨h.1, ?_, ?_⟩
    · have := h.2.1
      rw [hmin] at this
      linarith
    · have := h.2.2
      rw [hmin] at this
      linarith
  · have h := p3 Nat Unit (fun i => Except.error i) (fun e => decide (e = 0)) 3
      (fun _ => (1 : ℚ)) 1 1 (by norm_num) rfl rfl
      (by
        intro i hi
        interval_cases i
        exact ⟨0, rfl, rfl⟩)
    simpa using h

/-- C3: in the in-flight registry for one `request_key`: (a) a caller
arriving while a dispatch is outstanding joins the registered task's
future (creator flag false), with no new upstream call, no registry
change and no new task id; (b) while a dispatch is outstanding no step
increases the upstream call count — upstream is called exactly once per
registration; (c) a registration (arrival with an empty registry)
performs exactly one dispatch and installs the fresh task; (d) the
registry entry is removed only by the resume step of the caller that
created it. -/
theorem in_flight_dedup_spec (s s' : DedupState) (t : Nat) :
    (∀ i, s.inflight = some t → dedupStep s (.arrive i) = some s' →
      s'.callers[i]? = some (.waiting t false) ∧
      s'.upstreamCalls = s.upstreamCalls ∧ s'.inflight = some t ∧
      s'.nextTask = s.nextTask) ∧
    (∀ l, s.inflight = some t → dedupStep s l = some s' →
      s'.upstreamCalls = s.upstreamCalls) ∧
    (∀ i, s.inflight = none → dedupStep s (.arrive i) = some s' →
      s'.upstreamCalls = s.upstreamCalls + 1 ∧ s'.inflight = some s.nextTask ∧
      s'.callers[i]? = some (.waiting s.nextTask true)) ∧
    (∀ l, s.inflight = some t → dedupStep s l = some s' → s'.inflight ≠ some t →
      ∃ i, l = .resume i ∧ s.callers[i]? = some (.waiting t true) ∧
        s'.inflight = none) := by
  refine ⟨?_, ?_, ?_, ?_⟩
  · intro i hin hstep
    simp only [dedupStep] at hstep
    cases hc : s.callers[i]? with
    | none =>
      rw [hc] at hstep
      exact Option.noConfusion hstep
    | some phase =>
      rw [hc] at hstep
      cases phase with
      | start =>
        rw [hin] at hstep
        have hs' := Option.some.inj hstep
        subst hs'
        have hlt : i < s.callers.length := by
          by_contra hge
          push_neg at hge
          rw [List.getElem?_eq_none hge] at hc
          exact Option.noConfusion hc
        exact ⟨List.getElem?_set_self hlt, rfl, rfl, rfl⟩
      | waiting t' c => exact Option.noConfusion hstep
      | done => exact Option.noConfusion hstep
  · intro l hin hstep
    cases l with
    | arrive i =>
      simp only [dedupStep] at hstep
      cases hc : s.callers[i]? with
      | none =>
        rw [hc] at hstep
        exact Option.noConfusion hstep
      | some phase =>
        rw [hc] at hstep
        cases phase with
        | start =>
          rw [hin] at hstep
          have hs' := Option.some.inj hstep
          subst hs'
          rfl
        | waiting t' c => exact Option.noConfusion hstep
        | done => exact Option.noConfusion hstep
    | finishTask tf =>
      simp only [dedupStep] at hstep
      by_cases hg : (decide (tf < s.nextTask) && !s.completed.contains tf) = true
      · rw [if_pos hg] at hstep
        have hs' := Option.some.inj hstep
        subst hs'
        rfl
      · rw [if_neg hg] at hstep
        exact Option.noConfusion hstep
    | resume i =>
      simp only [dedupStep] at hstep
      cases hc : s.callers[i]? with
      | none =>
        rw [hc] at hstep
        exact Option.noConfusion hstep
      | some phase =>
        simp only [hc] at hstep
        cases phase with
        | start => exact Option.noConfusion hstep
        | done => exact Option.noConfusion hstep
        | waiting t' c =>
          dsimp only at hstep
          by_cases hcomp : s.completed.contains t' = true
          · rw [if_pos hcomp] at hstep
            cases c with
            | true =>
              rw [if_pos rfl] at hstep
              have hs' := Option.some.inj hstep
              subst hs'
              rfl
            | false =>
              rw [if_neg (by simp)] at hstep
              have hs' := Option.some.inj hstep
              subst hs'
              rfl
          · rw [if_neg hcomp] at hstep
            exact Option.noConfusion hstep
  · intro i hin hstep
    simp only [dedupStep] at hstep
    cases hc : s.callers[i]? with
    | none =>
      rw [hc] at hstep
      exact Option.noConfusion hstep
    | some phase =>
      rw [hc] at hstep
      cases phase with
      | start =>
        rw [hin] at hstep
        have hs' := Option.some.inj hstep
        subst hs'
        have hlt : i < s.callers.length := by
          by_contra hge
          push_neg at hge
          rw [List.getElem?_eq_none hge] at hc
          exact Option.noConfusion hc
        exact ⟨rfl, rfl, List.getElem?_set_self hlt⟩
      | waiting t' c => exact Option.noConfusion hstep
      | done => exact Option.noConfusion hstep
  · intro l hin hstep hne
    cases l with
    | arrive i =>
      simp only [dedupStep] at hstep
      cases hc : s.callers[i]? with
      | none =>
        rw [hc] at hstep
        exact Option.noConfusion hstep
      | some phase =>
        rw [hc] at hstep
        cases phase with
        | start =>
          rw [hin] at hstep
          have hs' := Option.some.inj hstep
          subst hs'
          exact absurd rfl hne
        | waiting t' c => exact Option.noConfusion hstep
        | done => exact Option.noConfusion hstep
    | finishTask tf =>
      simp only [dedupStep] at hstep
      by_cases hg : (decide (tf < s.nextTask) && !s.completed.contains tf) = true
      · rw [if_pos hg] at hstep
        have hs' := Option.some.inj hstep
        subst hs'
        exact absurd hin hne
      · rw [if_neg hg] at hstep
        exact Option.noConfusion hstep
    | resume i =>
      simp only [dedupStep] at hstep
      cases hc : s.callers[i]? with
      | none =>
        rw [hc] at hstep
        exact Option.noConfusion hstep
      | some phase =>
        simp only [hc] at hstep
        cases phase with
        | start => exact Option.noConfusion hstep
        | done => exact Option.noConfusion hstep
        | waiting t' c =>
          dsimp only at hstep
          by_cases hcomp : s.completed.contains t' = true
          · rw [if_pos hcomp] at hstep
            cases c with
            | false =>
              rw [if_neg (by simp)] at hstep
              have hs' := Option.some.inj hstep
              subst hs'
              exact absurd hin hne
            | true =>
              rw [if_pos rfl] at hstep
              have hs' := Option.some.inj hstep
              subst hs'
              by_cases hcond : s.inflight = some t'
              · have htt : t' = t := by
                  rw [hin] at hcond
                  exact (Option.some.inj hcond).symm
                subst htt
                refine ⟨i, rfl, hc, ?_⟩
                simp only [if_pos hcond]
              · exfalso
                apply hne
                simp only [if_neg hcond]
                exact hin
          · rw [if_neg hcomp] at hstep
            exact Option.noConfusion hstep

/-- Witness for C3: caller 0 registers task 0 (one upstream dispatch);
caller 1, arriving while the dispatch is outstanding, joins the same
task's future with no further dispatch. -/
theorem in_flight_dedup_spec_witness :
    dedupStep dedupInit (.arrive 0) = some dedupAfter0 ∧
    dedupAfter0.upstreamCalls = dedupInit.upstreamCalls + 1 ∧
    dedupStep dedupAfter0 (.arrive 1) = some dedupAfter1 ∧
    dedupAfter1.callers[1]? = some (.waiting 0 false) ∧
    dedupAfter1.upstreamCalls = dedupAfter0.upstreamCalls := by
  have hstep0 : dedupStep dedupInit (.arrive 0) = some dedupAfter0 := rfl
  have hstep1 : dedupStep dedupAfter0 (.arrive 1) = some dedupAfter1 := rfl
  have h0 := (in_flight_dedup_spec dedupInit dedupAfter0 0).2.2.1 0 rfl hstep0
  have h1 := (in_flight_dedup_spec dedupAfter0 dedupAfter1 0).1 1 rfl hstep1
  exact ⟨hstep0, h0.1, hstep1, h1.1, h1.2.1⟩

theorem count_map_mkSubTask (a' g' : String) (ks : List String) (a g k : String) :
    (ks.map (mkSubTask a' g')).count (mkSubTask a g k)
      = if a' = a ∧ g' = g then ks.count k else 0 := by
  induction ks with
  | nil => simp
  | cons k' rest ih =>
    simp only [List.map_cons, List.count_cons, ih]
    by_cases hag : a' = a ∧ g' = g
    · obtain ⟨h1, h2⟩ := hag
      subst h1
      subst h2
      simp only [and_self, if_true, List.count_cons]
      by_cases hk : k' = k
      · subst hk
        simp [mkSubTask]
      · simp [mkSubTask, hk]
    · rw [if_neg hag, if_neg hag]
      have : (mkSubTask a' g' k' == mkSubTask a g k) = false := by
        rw [beq_eq_false_iff_ne]
        intro hc
        apply hag
        have := SubTaskDoc.mk.injEq .. ▸ hc
        simp only [mkSubTask, SubTaskDoc.mk.injEq] at hc
        exact ⟨hc.1, hc.2.1⟩
      simp [this]

theorem count_flatMap_granules (a' : String) (granules : List String)
    (K : String → List String) (a g k : String) :
    ((granules.flatMap (fun g' => (K g').map (mkSubTask a' g'))).count (mkSubTask a g k))
      = if a' = a then granules.count g * (K g).count k else 0 := by
  induction granules with
  | nil => simp
  | cons g' rest ih =>
    rw [List.flatMap_cons, List.count_append, ih, count_map_mkSubTask]
    by_cases ha : a' = a
    · subst ha
      simp only [true_and, if_true, List.count_cons]
      by_cases hg : g' = g
      · subst hg
        simp only [if_pos rfl, beq_self_eq_true, if_true]
        ring
      · have : (g' == g) = false := by
          rw [beq_eq_false_iff_ne]
          exact hg
        simp only [if_neg hg, this, if_false, Bool.false_eq_true]
        ring
    · simp [ha]

theorem count_flatMap_actions (acts granules : List String)
    (K : String → List String) (a g k : String) :
    ((acts.flatMap (fun a' => granules.flatMap (fun g' =>
        (K g').map (mkSubTask a' g')))).count (mkSubTask a g k))
      = acts.count a * (granules.count g * (K g).count k) := by
  induction acts with
  | nil => simp
  | cons a' rest ih =>
    rw [List.flatMap_cons, List.count_append, ih, count_flatMap_granules]
    by_cases ha : a' = a
    · subst ha
      simp only [if_pos rfl, List.count_cons, beq_self_eq_true, if_true]
      ring
    · have : (a' == a) = false := by
        rw [beq_eq_false_iff_ne]
        exact ha
      simp only [if_neg ha, List.count_cons, this, if_false, Bool.false_eq_true]
      ring

/-- C9: for a non-empty list of valid actions and a non-empty list of
granularities, `create_crawl_job` inserts PENDING subtasks with
`attempts = 0`, records the insert count in the parent's
`stats.total_subtasks`, and the multiplicity of the subtask for any
triple (action, granularity, period key) is the product of the
multiplicities of its components — exactly one per triple when the
input lists are duplicate-free. -/
theorem create_crawl_job_spec (today : Date) (startDate endDate : String)
    (granularities actions : List String)
    (hg : granularities ≠ []) (ha : actions ≠ [])
    (hvalid : ∀ a ∈ actions, a ∈ validActionsList) :
    (∀ st ∈ (createCrawlJob today startDate endDate granularities actions).2,
      st.status = SubStatus.pending ∧ st.attempts = 0) ∧
    ((createCrawlJob today startDate endDate granularities actions).1.statsTotalSubtasks
      = (createCrawlJob today startDate endDate granularities actions).2.length) ∧
    ((createCrawlJob today startDate endDate granularities actions).1.status
      = JobStatus.pending) ∧
    (∀ a g k, (createCrawlJob today startDate endDate granularities actions).2.count
        (mkSubTask a g k)
      = actions.count a *
          (granularities.count g * (keysOf today g startDate endDate).count k)) := by
  have hge : granularities.isEmpty = false := by
    rw [List.isEmpty_eq_false]
    exact hg
  have hae : actions.isEmpty = false := by
    rw [List.isEmpty_eq_false]
    exact ha
  have hfilter : actions.filter (fun a => validActionsList.contains a) = actions :=
    List.filter_eq_self.mpr (fun a haa => List.elem_eq_true_of_mem (hvalid a haa))
  have hsub : (createCrawlJob today startDate endDate granularities actions).2
      = actions.flatMap (fun a => granularities.flatMap (fun g =>
          (keysOf today g startDate endDate).map (mkSubTask a g))) := by
    simp only [createCrawlJob, hge, hae, Bool.false_eq_true, if_false, hfilter]
  refine ⟨?_, rfl, rfl, ?_⟩
  · intro st hst
    rw [hsub] at hst
    simp only [List.mem_flatMap, List.mem_map] at hst
    obtain ⟨a, _, g, _, k, _, hmk⟩ := hst
    rw [← hmk]
    exact ⟨rfl, rfl⟩
  · intro a g k
    rw [hsub, count_flatMap_actions]

set_option maxRecDepth 40000 in
/-- Witness for C9 (scenario S6): one action `high`, day granularity,
range `2025-01-01..2025-01-03` yields exactly the three day keys, three
PENDING subtasks with zero attempts, `stats.total_subtasks = 3`, and
multiplicity one for each of the three triples. -/
theorem create_crawl_job_spec_witness :
    keysOf modelToday "day" "2025-01-01" "2025-01-03"
      = ["20250101", "20250102", "20250103"] ∧
    (createCrawlJob modelToday "2025-01-01" "2025-01-03" ["day"] ["high"]).2
      = [mkSubTask "high" "day" "20250101", mkSubTask "high" "day" "20250102",
         mkSubTask "high" "day" "20250103"] ∧
    (createCrawlJob modelToday "2025-01-01" "2025-01-03" ["day"] ["high"]).1
      = { status := .pending, statsTotalSubtasks := 3
          statsCompleted := 0, statsFailed := 0 } ∧
    (createCrawlJob modelToday "2025-01-01" "2025-01-03" ["day"] ["high"]).2.count
        (mkSubTask "high" "day" "20250102") = 1 := by
  have h := create_crawl_job_spec modelToday "2025-01-01" "2025-01-03" ["day"] ["high"]
    (by simp) (by simp) (by decide)
  refine ⟨rfl, rfl, rfl, ?_⟩
  have hc := h.2.2.2 "high" "day" "20250102"
  rw [hc]
  rfl

end Mengla
